import Mathlib

/-!
A verification development for the `hellsprite` WAD-sprite-to-PNG converter
(`src/main.rs`).  The Rust program is shallowly embedded: the memory-mapped
archive is a `List Nat` of bytes, `std::io::Cursor` becomes the `Cursor`
structure below, fallible operations return `Except Err`, and the mutable
`used_colors: [bool; 256]` tracker becomes a function `Nat → Bool` that is
threaded through the decoding pipeline.  Machine-integer arithmetic that can
overflow (the `u8` sum `post.topdelta + dy`) is modelled with an explicit
`% 256`.
-/

set_option maxRecDepth 100000

/-- Failure modes of the run.  `truncated` models an `UnexpectedEof` from
`read_exact` (binrw's `Truncated`-class error), `indexOutOfRange` models a Rust
slice/vec index panic, `nonText` the `expect("Non-ASCII in WAD")` panic,
`missingPalette` the `expect("No palette")` panic, `transparencyViolated` the
final `assert!` panic, and `fuelOut` is the (unreachable) guard of the
fuel-bounded post loop.  `outOfRange` never occurs in the embedded code; it
exists so the specification's claim about seeking can be stated. -/
inductive Err where
  | truncated
  | badMagic
  | nonText
  | missingPalette
  | indexOutOfRange
  | transparencyViolated
  | outOfRange
  | fuelOut
deriving DecidableEq

/-- `std::io::Cursor<&[u8]>`: a read-only byte buffer plus a read position. -/
structure Cursor where
  data : List Nat
  pos : Nat
deriving DecidableEq

/-- `Cursor::seek(SeekFrom::Start(off))` just sets the position.  `std::io`
allows seeking past the end of the buffer, so this never fails. -/
def setPos (c : Cursor) (off : Nat) : Cursor := ⟨c.data, off⟩

/-- The `seek` call as the program performs it (always via `SeekFrom::Start`):
it returns `Ok` for every offset, including offsets past the end. -/
def seekStart (c : Cursor) (off : Nat) : Except Err Cursor := .ok (setPos c off)

/-- `read_u8` / a one-byte `read_exact`: fails with `UnexpectedEof` when the
position is at or past the end of the buffer.  The `% 256` records that the
backing store holds `u8` values. -/
def readU8 (c : Cursor) : Except Err (Nat × Cursor) :=
  if h : c.pos < c.data.length then
    .ok (c.data[c.pos] % 256, ⟨c.data, c.pos + 1⟩)
  else
    .error .truncated

/-- binrw's little-endian `u16` read: two bytes, low byte first. -/
def readU16le (c : Cursor) : Except Err (Nat × Cursor) :=
  match readU8 c with
  | .error e => .error e
  | .ok (a, c) =>
    match readU8 c with
    | .error e => .error e
    | .ok (b, c) => .ok (a + 256 * b, c)

/-- binrw's little-endian `u32` read: four bytes, low byte first. -/
def readU32le (c : Cursor) : Except Err (Nat × Cursor) :=
  match readU8 c with
  | .error e => .error e
  | .ok (a, c) =>
    match readU8 c with
    | .error e => .error e
    | .ok (b, c) =>
      match readU8 c with
      | .error e => .error e
      | .ok (d, c) =>
        match readU8 c with
        | .error e => .error e
        | .ok (e2, c) => .ok (a + 256 * b + 65536 * d + 16777216 * e2, c)

/-- `read_exact` into an `n`-byte buffer, one byte at a time. -/
def readBytes (c : Cursor) : Nat → Except Err (List Nat × Cursor)
  | 0 => .ok ([], c)
  | n + 1 =>
    match readU8 c with
    | .error e => .error e
    | .ok (b, c') =>
      match readBytes c' n with
      | .error e => .error e
      | .ok (bs, c'') => .ok (b :: bs, c'')

/-- A sequence of `n` little-endian `u32` reads (`columnofs` with
`count = width`). -/
def readU32s (c : Cursor) : Nat → Except Err (List Nat × Cursor)
  | 0 => .ok ([], c)
  | n + 1 =>
    match readU32le c with
    | .error e => .error e
    | .ok (v, c') =>
      match readU32s c' n with
      | .error e => .error e
      | .ok (vs, c'') => .ok (v :: vs, c'')

/-- Is a byte a UTF-8 continuation byte (`0x80..=0xBF`)? -/
def contByte (b : Nat) : Bool := 128 ≤ b && b ≤ 191

/-- Strict UTF-8 validation as performed by Rust's `std::str::from_utf8`
(rejecting overlong encodings, surrogates, and values above U+10FFFF). -/
def validUtf8 : List Nat → Bool
  | [] => true
  | b :: rest =>
    if b ≤ 127 then validUtf8 rest
    else if b ≤ 193 then false
    else if b ≤ 223 then
      match rest with
      | c :: r => contByte c && validUtf8 r
      | [] => false
    else if b ≤ 239 then
      match rest with
      | c1 :: c2 :: r =>
        (if b = 224 then decide (160 ≤ c1 ∧ c1 ≤ 191)
         else if b = 237 then decide (128 ≤ c1 ∧ c1 ≤ 159)
         else contByte c1) && contByte c2 && validUtf8 r
      | _ => false
    else if b ≤ 244 then
      match rest with
      | c1 :: c2 :: c3 :: r =>
        (if b = 240 then decide (144 ≤ c1 ∧ c1 ≤ 191)
         else if b = 244 then decide (128 ≤ c1 ∧ c1 ≤ 143)
         else contByte c1) && contByte c2 && contByte c3 && validUtf8 r
      | _ => false
    else false

/-- `doomstr`: take bytes up to the first NUL and interpret them as text;
the `expect("Non-ASCII in WAD")` panic on invalid UTF-8 is modelled as a
`nonText` error.  The result is kept as the byte sequence of the decoded
string (Rust `&str` equality is byte equality). -/
def doomstr (d : List Nat) : Except Err (List Nat) :=
  let p := d.takeWhile (fun b => b != 0)
  if validUtf8 p then .ok p else .error .nonText

/-- The statically chosen transparent palette index (`const TRANSPARENT`). -/
def TRANSPARENT : Nat := 251

/-- A directory record (`Filelump`): file offset, size, fixed 8-byte name. -/
structure Filelump where
  filepos : Nat
  size : Nat
  namebuf : List Nat
deriving DecidableEq

/-- `Filelump::name()`. -/
def lumpName (l : Filelump) : Except Err (List Nat) := doomstr l.namebuf

/-- One 16-byte directory record, read little-endian. -/
def readFilelump (c : Cursor) : Except Err (Filelump × Cursor) :=
  match readU32le c with
  | .error e => .error e
  | .ok (fp, c) =>
    match readU32le c with
    | .error e => .error e
    | .ok (sz, c) =>
      match readBytes c 8 with
      | .error e => .error e
      | .ok (nb, c) => .ok (⟨fp, sz, nb⟩, c)

/-- The lump-reading loop of `read_directory`. -/
def readLumps (c : Cursor) : Nat → Except Err (List Filelump)
  | 0 => .ok []
  | n + 1 =>
    match readFilelump c with
    | .error e => .error e
    | .ok (l, c') =>
      match readLumps c' n with
      | .error e => .error e
      | .ok ls => .ok (l :: ls)

/-- `read_directory`: `Cursor::new(&wad[infotableofs..])` (the slice panics,
i.e. fails, when the offset exceeds the buffer length) and then `numlumps`
sequential 16-byte records. -/
def readDirectory (wad : List Nat) (numlumps infotableofs : Nat) :
    Except Err (List Filelump) :=
  if infotableofs ≤ wad.length then
    match readLumps ⟨wad.drop infotableofs, 0⟩ numlumps with
    | .error e => .error e
    | .ok ls => .ok ls
  else .error .indexOutOfRange

/-- `read_palette`: the 768-byte slice `&wad[filepos .. filepos+768]`;
slicing out of range is a panic (`indexOutOfRange`). -/
def readPalette (wad : List Nat) (lump : Filelump) : Except Err (List Nat) :=
  if lump.filepos + 768 ≤ wad.length then
    .ok ((wad.drop lump.filepos).take 768)
  else .error .indexOutOfRange

/-- The used-colour tracker `used_colors: [bool; 256]`, as a function. -/
def Used : Type := Nat → Bool

/-- `used_colors[px] = true`. -/
def markUsed (U : Used) (px : Nat) : Used :=
  fun j => if j = px then true else U j

/-- `pixels[i] = v` with the bounds check of a Rust `Vec` index: writing out
of range is an unrecoverable panic. -/
def setPix (B : List Nat) (i v : Nat) : Except Err (List Nat) :=
  if i < B.length then .ok (B.set i v) else .error .indexOutOfRange

/-- The inner pixel loop `for dy in 0..post.length`: read one palette-index
byte, mark it used, and write it at `x + (topdelta + dy) * width` where the
row is the wrapping 8-bit sum `(t + dy) % 256`.  Arguments: remaining count,
current `dy`, cursor, column `x`, image width `w`, the post's `topdelta`,
pixel buffer, used tracker. -/
def decodePixels :
    Nat → Nat → Cursor → Nat → Nat → Nat → List Nat → Used →
    Except Err (List Nat × Used × Cursor)
  | 0, _, c, _, _, _, B, U => .ok (B, U, c)
  | k + 1, dy, c, x, w, t, B, U =>
    match readU8 c with
    | .error e => .error e
    | .ok (px, c) =>
      let U' := markUsed U px
      match setPix B (x + (t + dy) % 256 * w) px with
      | .error e => .error e
      | .ok B' => decodePixels k (dy + 1) c x w t B' U'

/-- The `loop` over posts of one column: read a `PostHeader` (`topdelta`,
`length`, and a 1-byte `pad_after` that binrw skips by seeking, which cannot
fail), stop on `topdelta == 255`, otherwise decode `length` pixels and then
`read_u8` one trailing pad byte.  `fuel` bounds the loop; each non-final
iteration consumes at least one byte of the cursor, so `wad.length + 1` fuel
can never run out. -/
def decodeColumn :
    Nat → Cursor → Nat → Nat → List Nat → Used →
    Except Err (List Nat × Used × Cursor)
  | 0, _, _, _, _, _ => .error .fuelOut
  | fuel + 1, c, x, w, B, U =>
    match readU8 c with
    | .error e => .error e
    | .ok (t, c) =>
      match readU8 c with
      | .error e => .error e
      | .ok (len, c) =>
        let c := setPos c (c.pos + 1)
        if t = 255 then .ok (B, U, c)
        else
          match decodePixels len 0 c x w t B U with
          | .error e => .error e
          | .ok (B, U, c) =>
            match readU8 c with
            | .error e => .error e
            | .ok (_, c) => decodeColumn fuel c x w B U

/-- `for (x, col) in header.columnofs.iter().enumerate()`: seek to
`base + col` (always succeeds) and decode that column's posts. -/
def decodeColumns (wad : List Nat) (base w : Nat) :
    List Nat → Nat → List Nat → Used → Except Err (List Nat × Used)
  | [], _, B, U => .ok (B, U)
  | col :: rest, x, B, U =>
    match decodeColumn (wad.length + 1) ⟨wad, base + col⟩ x w B U with
    | .error e => .error e
    | .ok (B, U, _) => decodeColumns wad base w rest (x + 1) B U

/-- The result of decoding one sprite lump: dimensions, the row-major pixel
buffer, and the used-colour tracker after the decode. -/
structure DecodedImage where
  width : Nat
  height : Nat
  pixels : List Nat
  used : Used

/-- The decoding half of `save_sprite`: seek to the lump, read the
`PatchHeader` (width, height, two ignored `i16` offsets, `width` column
offsets), allocate a `width*height` buffer filled with `TRANSPARENT`, and
decode every column. -/
def decodeSprite (wad : List Nat) (sprite : Filelump) (U : Used) :
    Except Err DecodedImage :=
  let base := sprite.filepos
  let c : Cursor := ⟨wad, base⟩
  match readU16le c with
  | .error e => .error e
  | .ok (w, c) =>
    match readU16le c with
    | .error e => .error e
    | .ok (h, c) =>
      match readU16le c with
      | .error e => .error e
      | .ok (_, c) =>
        match readU16le c with
        | .error e => .error e
        | .ok (_, c) =>
          match readU32s c w with
          | .error e => .error e
          | .ok (colofs, _) =>
            let B := List.replicate (w * h) TRANSPARENT
            match decodeColumns wad base w colofs 0 B U with
            | .error e => .error e
            | .ok (B, U) => .ok ⟨w, h, B, U⟩

/-- A parse-only mirror of `decodeColumn`: the list of `(topdelta, bytes)`
posts of one column, without performing any buffer write.  It performs the
same byte reads in the same order as `decodeColumn`. -/
def parseColumn :
    Nat → Cursor → Except Err (List (Nat × List Nat) × Cursor)
  | 0, _ => .error .fuelOut
  | fuel + 1, c =>
    match readU8 c with
    | .error e => .error e
    | .ok (t, c) =>
      match readU8 c with
      | .error e => .error e
      | .ok (len, c) =>
        let c := setPos c (c.pos + 1)
        if t = 255 then .ok ([], c)
        else
          match readBytes c len with
          | .error e => .error e
          | .ok (bs, c) =>
            match readU8 c with
            | .error e => .error e
            | .ok (_, c) =>
              match parseColumn fuel c with
              | .error e => .error e
              | .ok (ps, c') => .ok ((t, bs) :: ps, c')

/-- Parse-only mirror of `decodeColumns`. -/
def parseColumns (wad : List Nat) (base w : Nat) :
    List Nat → Except Err (List (List (Nat × List Nat)))
  | [] => .ok []
  | col :: rest =>
    match parseColumn (wad.length + 1) ⟨wad, base + col⟩ with
    | .error e => .error e
    | .ok (ps, _) =>
      match parseColumns wad base w rest with
      | .error e => .error e
      | .ok css => .ok (ps :: css)

/-- Parse-only mirror of `decodeSprite`: width, height, and the posts of
every column. -/
def parseSprite (wad : List Nat) (sprite : Filelump) :
    Except Err (Nat × Nat × List (List (Nat × List Nat))) :=
  let base := sprite.filepos
  let c : Cursor := ⟨wad, base⟩
  match readU16le c with
  | .error e => .error e
  | .ok (w, c) =>
    match readU16le c with
    | .error e => .error e
    | .ok (h, c) =>
      match readU16le c with
      | .error e => .error e
      | .ok (_, c) =>
        match readU16le c with
        | .error e => .error e
        | .ok (_, c) =>
          match readU32s c w with
          | .error e => .error e
          | .ok (colofs, _) =>
            match parseColumns wad base w colofs with
            | .error e => .error e
            | .ok css => .ok (w, h, css)

/-- Nearest-neighbor 5×6 upscale (the `if upsample` block of `save_sprite`):
`embiggened` starts as `vec![0; (5w)*(6h)]` and each source pixel `(x, y)` is
written to destination `(x*5+dx, y*6+dy)` for `dy in 0..6`, `dx in 0..5`,
row-major with destination width `w*5`.  Every access is in range when
`px.length = w*h` (the decoder's buffer), so the unchecked `getD`/`set` here
coincide with the Rust vec indexing. -/
def upscale (w h : Nat) (px : List Nat) : List Nat :=
  (List.range h).foldl (fun buf y =>
    (List.range w).foldl (fun buf x =>
      let src := px.getD (x + y * w) 0
      (List.range 6).foldl (fun buf dy =>
        (List.range 5).foldl (fun buf dx =>
          buf.set (x * 5 + dx + (y * 6 + dy) * (w * 5)) src) buf) buf) buf)
    (List.replicate (w * 5 * (h * 6)) 0)

/-- The `TRNS` alpha table handed to the PNG encoder: `vec![255; 255]` with
entry `TRANSPARENT` set to 0. -/
def TRNS : List Nat := (List.replicate 255 255).set TRANSPARENT 0

/-- `"S_START"` as bytes. -/
def SSTART : List Nat := [83, 95, 83, 84, 65, 82, 84]

/-- `"S_END"` as bytes. -/
def SEND : List Nat := [83, 95, 69, 78, 68]

/-- `"STF"` as bytes. -/
def STF : List Nat := [83, 84, 70]

/-- `"PLAYPAL"` as bytes. -/
def PLAYPAL : List Nat := [80, 76, 65, 89, 80, 65, 76]

/-- `"IWAD"` as bytes. -/
def IWAD : List Nat := [73, 87, 65, 68]

/-- `"PWAD"` as bytes. -/
def PWAD : List Nat := [80, 87, 65, 68]

/-- Rust `str::starts_with` on the underlying bytes. -/
def startsWithBytes : List Nat → List Nat → Bool
  | [], _ => true
  | _ :: _, [] => false
  | p :: ps, b :: bs => p == b && startsWithBytes ps bs

/-- `dir.iter().find(|l| l.name() == "PLAYPAL")`: names are decoded lazily in
directory order (a non-text name hit before the palette is a panic), and a
missing palette is the `expect("No palette")` panic. -/
def findPalette : List Filelump → Except Err Filelump
  | [] => .error .missingPalette
  | l :: rest =>
    match lumpName l with
    | .error e => .error e
    | .ok n => if n = PLAYPAL then .ok l else findPalette rest

/-- The `take_while(|l| l.name() != "S_END")` phase of the sprite iterator:
everything up to (exclusive) the first `"S_END"`. -/
def spriteTake : List Filelump → Except Err (List Filelump)
  | [] => .ok []
  | l :: rest =>
    match lumpName l with
    | .error e => .error e
    | .ok n =>
      if n = SEND then .ok []
      else
        match spriteTake rest with
        | .error e => .error e
        | .ok t => .ok (l :: t)

/-- The sprite selection `skip_while(name != "S_START").skip(1).take_while
(name != "S_END")`: exact, case-sensitive comparisons. -/
def selectSprites : List Filelump → Except Err (List Filelump)
  | [] => .ok []
  | l :: rest =>
    match lumpName l with
    | .error e => .error e
    | .ok n => if n = SSTART then spriteTake rest else selectSprites rest

/-- The HUD-face selection `filter(|l| l.name().starts_with("STF"))`. -/
def selectFaces : List Filelump → Except Err (List Filelump)
  | [] => .ok []
  | l :: rest =>
    match lumpName l with
    | .error e => .error e
    | .ok n =>
      match selectFaces rest with
      | .error e => .error e
      | .ok t => .ok (if startsWithBytes STF n then l :: t else t)

/-- `save_sprite`, minus the filesystem: decode the lump, optionally upscale
(the result is handed to the PNG encoder, an external I/O sink, together with
the shared palette and `TRNS`), and return the updated used-colour tracker. -/
def saveSprite (wad : List Nat) (lump : Filelump) (up : Bool) (U : Used) :
    Except Err Used :=
  match decodeSprite wad lump U with
  | .error e => .error e
  | .ok img =>
    let _out := if up then upscale img.width img.height img.pixels else img.pixels
    .ok img.used

/-- One of `go`'s conversion loops: `save_sprite` on each selected lump in
order, threading the shared used-colour tracker. -/
def decodeLumps (wad : List Nat) (up : Bool) :
    List Filelump → Used → Except Err Used
  | [], U => .ok U
  | l :: rest, U =>
    match saveSprite wad l up U with
    | .error e => .error e
    | .ok U' => decodeLumps wad up rest U'

/-- `go`: read the `Wadinfo` header, validate the magic, read the directory,
find and read the palette, convert the sprite range, convert the `STF` faces,
and finally assert that `TRANSPARENT` is among the unused colour indexes
(`assert!(unused_color_indexes.iter().any(|b| *b == TRANSPARENT))`). -/
def runGo (wad : List Nat) (up : Bool) : Except Err Unit :=
  match readBytes ⟨wad, 0⟩ 4 with
  | .error e => .error e
  | .ok (magicBytes, c) =>
    match readU32le c with
    | .error e => .error e
    | .ok (numlumps, c) =>
      match readU32le c with
      | .error e => .error e
      | .ok (infotableofs, _) =>
        match doomstr magicBytes with
        | .error e => .error e
        | .ok magic =>
          if magic = IWAD ∨ magic = PWAD then
            match readDirectory wad numlumps infotableofs with
            | .error e => .error e
            | .ok dir =>
              match findPalette dir with
              | .error e => .error e
              | .ok pl =>
                match readPalette wad pl with
                | .error e => .error e
                | .ok _palette =>
                  match selectSprites dir with
                  | .error e => .error e
                  | .ok sprites =>
                    match decodeLumps wad up sprites (fun _ => false) with
                    | .error e => .error e
                    | .ok U1 =>
                      match selectFaces dir with
                      | .error e => .error e
                      | .ok faces =>
                        match decodeLumps wad up faces U1 with
                        | .error e => .error e
                        | .ok U2 =>
                          let unused := (List.range 256).filter (fun i => ! U2 i)
                          if unused.any (fun b => b == TRANSPARENT) then .ok ()
                          else .error .transparencyViolated
          else .error .badMagic

/-!  Spec-side description of the decoder's buffer writes.  A post with
top-delta `t` and pixel bytes `bs` in column `x` of a `w`-wide image writes
byte `bs[dy]` at buffer index `x + ((t + dy) % 256) * w` — the claims'
index formula, with the wrapping 8-bit row sum made explicit. -/

/-- The `(index, value)` writes of one post's pixel run, with `dy` starting
at `d0` (the claims use `d0 = 0`). -/
def pixelWrites (x w t d0 : Nat) : List Nat → List (Nat × Nat)
  | [] => []
  | b :: bs => (x + (t + d0) % 256 * w, b) :: pixelWrites x w t (d0 + 1) bs

/-- All writes of one column's posts, in decode order. -/
def columnWrites (x w : Nat) : List (Nat × List Nat) → List (Nat × Nat)
  | [] => []
  | (t, bs) :: ps => pixelWrites x w t 0 bs ++ columnWrites x w ps

/-- All writes of a sprite's columns, the first column having index `x`. -/
def colsWrites (w : Nat) : Nat → List (List (Nat × List Nat)) → List (Nat × Nat)
  | _, [] => []
  | x, ps :: rest => columnWrites x w ps ++ colsWrites w (x + 1) rest

/-- Apply a list of `(index, value)` writes to a buffer, first write first. -/
def applyWrites (ws : List (Nat × Nat)) (B : List Nat) : List Nat :=
  ws.foldl (fun B wv => B.set wv.1 wv.2) B

/-- The claims' description of a decoded pixel buffer: start from a
`w*h` buffer of `TRANSPARENT` and perform every post's writes in order. -/
def renderSprite (w h : Nat) (cols : List (List (Nat × List Nat))) : List Nat :=
  applyWrites (colsWrites w 0 cols) (List.replicate (w * h) TRANSPARENT)

/-- A 1×258 picture lump with a single column holding one post with
top-delta 200 and length 60 (pixel value 7 throughout): because the row index
is the wrapping 8-bit sum `topdelta + dy`, rows 200–255 and then rows 0–3 are
written, all in range, and the decode succeeds. -/
def cexWad : List Nat :=
  [1, 0, 2, 1, 0, 0, 0, 0, 12, 0, 0, 0] ++ [200, 60, 0] ++
  List.replicate 60 7 ++ [0, 255, 0]

/-- The directory record for `cexWad`'s picture lump (offset 0). -/
def cexLump : Filelump := ⟨0, 78, [67, 69, 88, 0, 0, 0, 0, 0]⟩

/-- The pixel at index `i` of a decode result, `none` on a failed decode. -/
def pixAt (e : Except Err DecodedImage) (i : Nat) : Option Nat :=
  match e with
  | .ok r => r.pixels[i]?
  | .error _ => none

/-- A 2×2 picture lump: column 0 has one post (top-delta 0, bytes 1 and 2),
column 1 is immediately terminated. -/
def c1wWad : List Nat :=
  [2, 0, 2, 0, 0, 0, 0, 0, 16, 0, 0, 0, 24, 0, 0, 0] ++
  [0, 2, 0, 1, 2, 0, 255, 0] ++ [255, 0]

/-- The directory record for `c1wWad`'s picture lump (offset 0). -/
def c1wLump : Filelump := ⟨0, 26, [67, 69, 88, 49, 0, 0, 0, 0]⟩

/-- The decode result of `c1wWad`: pixels `[1, 251, 2, 251]`, colours 1 and 2
marked used. -/
def c1wImg : DecodedImage :=
  ⟨2, 2, [1, 251, 2, 251], markUsed (markUsed (fun _ => false) 1) 2⟩

/-- A 1×1 picture lump whose single post has top-delta 5 and one pixel byte:
the computed write index 5 is outside the 1-element buffer. -/
def c3wWad : List Nat :=
  [1, 0, 1, 0, 0, 0, 0, 0, 12, 0, 0, 0] ++ [5, 1, 0, 9, 0, 255, 0]

/-- The directory record for `c3wWad`'s picture lump (offset 0). -/
def c3wLump : Filelump := ⟨0, 19, [67, 69, 88, 51, 0, 0, 0, 0]⟩

/-- A tracker with index 17 already marked used. -/
def c10U : Used := fun i => i == 17

instance instDecEqExcept {ε α : Type} [DecidableEq ε] [DecidableEq α] :
    DecidableEq (Except ε α) := fun a b =>
  match a, b with
  | .error x, .error y =>
    if h : x = y then isTrue (by subst h; rfl)
    else isFalse (fun hc => h (Except.error.inj hc))
  | .ok x, .ok y =>
    if h : x = y then isTrue (by subst h; rfl)
    else isFalse (fun hc => h (Except.ok.inj hc))
  | .error _, .ok _ => isFalse (fun hc => Except.noConfusion hc)
  | .ok _, .error _ => isFalse (fun hc => Except.noConfusion hc)

/-- The spec's sprite range, positionally: everything strictly after the
first `"S_START"` and strictly before the next `"S_END"`, in directory
order, comparing names (given by `f`) exactly. -/
def specSpriteRange (f : Filelump → List Nat) (dir : List Filelump) :
    List Filelump :=
  let rest := dir.drop (dir.findIdx (fun l => f l == SSTART) + 1)
  rest.take (rest.findIdx (fun l => f l == SEND))

/-- ASCII upper-casing of one byte, for stating the claim's
case-independent comparison. -/
def upByte (b : Nat) : Nat := if 97 ≤ b ∧ b ≤ 122 then b - 32 else b

/-- Case-independent byte-string equality (the claim's comparison). -/
def eqCI (a b : List Nat) : Bool := a.map upByte == b.map upByte

/-- Modelled from the claim's words: the sprite range with case-independent
marker comparison. -/
def specSpritesCI (names : List (List Nat)) : List (List Nat) :=
  let rest := names.drop (names.findIdx (fun n => eqCI n SSTART) + 1)
  rest.take (rest.findIdx (fun n => eqCI n SEND))

/-- Modelled from the claim's words: the full converted set under
case-independent comparisons — sprite range plus case-independent
`"STF"`-prefixed names. -/
def specConvertedCI (names : List (List Nat)) : List (List Nat) :=
  specSpritesCI names ++ names.filter (fun n => startsWithBytes STF (n.map upByte))

/-- `"s_start"` in lower case. -/
def loS : List Nat := [115, 95, 115, 116, 97, 114, 116]

/-- `"s_end"` in lower case. -/
def loE : List Nat := [115, 95, 101, 110, 100]

/-- Pad a name to the 8-byte directory buffer. -/
def nameBufOf (n : List Nat) : List Nat := n ++ List.replicate (8 - n.length) 0

/-- A directory `[s_start, A, s_end]` with lower-case markers. -/
def c2dir : List Filelump :=
  [⟨0, 0, nameBufOf loS⟩, ⟨0, 0, nameBufOf [65]⟩, ⟨0, 0, nameBufOf loE⟩]

/-- A directory with one `"STF1"` face lump and one other lump. -/
def c2wDir : List Filelump :=
  [⟨0, 0, [83, 84, 70, 49, 0, 0, 0, 0]⟩, ⟨0, 0, [65, 66, 0, 0, 0, 0, 0, 0]⟩]

/-- The decoded-name assignment for `c2wDir`. -/
def c2wF : Filelump → List Nat := fun l => l.namebuf.takeWhile (fun b => b != 0)

/-- A minimal well-formed archive: `"PWAD"` magic, one `PLAYPAL` lump of 768
zero bytes, directory at offset 780, no sprite or face lumps. -/
def c4wad : List Nat :=
  [80, 87, 65, 68, 1, 0, 0, 0, 12, 3, 0, 0] ++ List.replicate 768 0 ++
  [12, 0, 0, 0, 0, 3, 0, 0, 80, 76, 65, 89, 80, 65, 76, 0]

/-- The write list of the upsampler's four nested loops, in loop order. -/
def upWrites (w h : Nat) (px : List Nat) : List (Nat × Nat) :=
  (List.range h).flatMap (fun y => (List.range w).flatMap (fun x =>
    (List.range 6).flatMap (fun dy => (List.range 5).map (fun dx =>
      (x * 5 + dx + (y * 6 + dy) * (w * 5), px.getD (x + y * w) 0)))))

/-- C5 witness input: a 1×1 image with the single pixel 9. -/
def c5wPx : List Nat := [9]

/-- An 8-byte name buffer with a non-text byte (255) after an interior NUL:
`"A", NUL, "B", 0xFF, NUL×4`. -/
def c8cex : List Nat := [65, 0, 66, 255, 0, 0, 0, 0]

/-- `"HI"` NUL-padded to 8 bytes. -/
def c8wNb : List Nat := [72, 73, 0, 0, 0, 0, 0, 0]

theorem applyWrites_nil (B : List Nat) : applyWrites [] B = B := rfl

theorem applyWrites_cons (iv : Nat × Nat) (ws : List (Nat × Nat)) (B : List Nat) :
    applyWrites (iv :: ws) B = applyWrites ws (B.set iv.1 iv.2) := rfl

theorem applyWrites_append (ws1 ws2 : List (Nat × Nat)) (B : List Nat) :
    applyWrites (ws1 ++ ws2) B = applyWrites ws2 (applyWrites ws1 B) :=
  List.foldl_append _ _ _ _

theorem length_applyWrites (ws : List (Nat × Nat)) (B : List Nat) :
    (applyWrites ws B).length = B.length := by
  induction ws generalizing B with
  | nil => rfl
  | cons iv ws ih => rw [applyWrites_cons, ih, List.length_set]

theorem getElem?_set_self_nat (l : List Nat) (i v : Nat) (h : i < l.length) :
    (l.set i v)[i]? = some v := by
  simp [List.getElem?_set_self, h]

theorem getElem?_set_other_nat (l : List Nat) (i j v : Nat) (h : i ≠ j) :
    (l.set i v)[j]? = l[j]? := by
  simp [List.getElem?_set_ne h]

theorem getElem?_replicate_lt (n a i : Nat) (h : i < n) :
    (List.replicate n a)[i]? = some a := by
  simp [List.getElem?_replicate, h]

/-- An index no write touches keeps its old contents. -/
theorem getElem?_applyWrites_notMem (ws : List (Nat × Nat)) (B : List Nat)
    (d : Nat) (h : ∀ wv ∈ ws, wv.1 ≠ d) :
    (applyWrites ws B)[d]? = B[d]? := by
  induction ws generalizing B with
  | nil => rfl
  | cons iv ws ih =>
    rw [applyWrites_cons, ih _ (fun wv hw => h wv (List.mem_cons_of_mem _ hw)),
      getElem?_set_other_nat _ _ _ _ (h iv (List.mem_cons_self _ _))]

/-- If some write hits index `d`, every write to `d` stores the same value
`v0`, and `d` is in range, then the final buffer holds `v0` at `d`. -/
theorem getElem?_applyWrites_of_mem (ws : List (Nat × Nat)) (B : List Nat)
    (d v0 : Nat) (hmem : (d, v0) ∈ ws) (huniq : ∀ v, (d, v) ∈ ws → v = v0)
    (hd : d < B.length) :
    (applyWrites ws B)[d]? = some v0 := by
  induction ws generalizing B with
  | nil => cases hmem
  | cons iv ws ih =>
    rw [applyWrites_cons]
    by_cases hrest : ∃ v, (d, v) ∈ ws
    · obtain ⟨v, hv⟩ := hrest
      have hv0 : v = v0 := huniq v (List.mem_cons_of_mem _ hv)
      subst hv0
      exact ih _ hv (fun v' hv' => huniq v' (List.mem_cons_of_mem _ hv'))
        (by rw [List.length_set]; exact hd)
    · have hiv : iv = (d, v0) := by
        rcases List.mem_cons.mp hmem with h | h
        · exact h.symm
        · exact absurd ⟨v0, h⟩ hrest
      subst hiv
      rw [getElem?_applyWrites_notMem _ _ _
        (fun wv hw => by
          obtain ⟨a, b⟩ := wv
          intro hcontra
          simp only at hcontra
          subst hcontra
          exact hrest ⟨b, hw⟩),
        getElem?_set_self_nat _ _ _ hd]

theorem setPix_ok (B : List Nat) (i v : Nat) (B2 : List Nat)
    (h : setPix B i v = .ok B2) : i < B.length ∧ B2 = B.set i v := by
  unfold setPix at h
  split at h
  · exact ⟨by assumption, by injection h with h'; exact h'.symm⟩
  · cases h

/-- The pixel loop is the reads of `readBytes` plus the writes of
`pixelWrites`, and every write it performs is in range. -/
theorem decodePixels_spec :
    ∀ (k d0 : Nat) (c : Cursor) (x w t : Nat) (B : List Nat) (U : Used)
      (B' : List Nat) (U' : Used) (c' : Cursor),
    decodePixels k d0 c x w t B U = .ok (B', U', c') →
    ∃ bs, readBytes c k = .ok (bs, c') ∧
      B' = applyWrites (pixelWrites x w t d0 bs) B ∧
      (∀ wv ∈ pixelWrites x w t d0 bs, wv.1 < B.length) := by
  intro k
  induction k with
  | zero =>
    intro d0 c x w t B U B' U' c' h
    simp only [decodePixels] at h
    obtain ⟨rfl, rfl, rfl⟩ : B = B' ∧ U = U' ∧ c = c' := by
      injection h with h2
      simp only [Prod.mk.injEq] at h2
      exact ⟨h2.1, h2.2.1, h2.2.2⟩
    exact ⟨[], rfl, rfl, by intro wv hw; cases hw⟩
  | succ k ih =>
    intro d0 c x w t B U B' U' c' h
    simp only [decodePixels] at h
    cases hr : readU8 c with
    | error e => rw [hr] at h; cases h
    | ok pc =>
      obtain ⟨px, c1⟩ := pc
      rw [hr] at h
      cases hs : setPix B (x + (t + d0) % 256 * w) px with
      | error e => simp only [hs] at h; cases h
      | ok B1 =>
        simp only [hs] at h
        obtain ⟨hlt, rfl⟩ := setPix_ok _ _ _ _ hs
        obtain ⟨bs, hrb, hB, hbd⟩ := ih (d0 + 1) c1 x w t _ _ B' U' c' h
        refine ⟨px :: bs, ?_, ?_, ?_⟩
        · simp only [readBytes, hr, hrb]
        · rw [pixelWrites, applyWrites_cons, hB]
        · intro wv hw
          rcases List.mem_cons.mp hw with hw | hw
          · subst hw; exact hlt
          · have := hbd wv hw
            rwa [List.length_set] at this

/-- One column's decode is one column's parse plus `columnWrites`, every
write in range, and no parsed post has the terminator top-delta 255. -/
theorem decodeColumn_spec :
    ∀ (fuel : Nat) (c : Cursor) (x w : Nat) (B : List Nat) (U : Used)
      (B' : List Nat) (U' : Used) (c' : Cursor),
    decodeColumn fuel c x w B U = .ok (B', U', c') →
    ∃ ps, parseColumn fuel c = .ok (ps, c') ∧
      B' = applyWrites (columnWrites x w ps) B ∧
      (∀ wv ∈ columnWrites x w ps, wv.1 < B.length) ∧
      (∀ p ∈ ps, p.1 ≠ 255) := by
  intro fuel
  induction fuel with
  | zero => intro c x w B U B' U' c' h; cases h
  | succ fuel ih =>
    intro c x w B U B' U' c' h
    simp only [decodeColumn] at h
    cases hr1 : readU8 c with
    | error e => rw [hr1] at h; cases h
    | ok tc =>
      obtain ⟨t, c1⟩ := tc
      rw [hr1] at h
      cases hr2 : readU8 c1 with
      | error e => simp only [hr2] at h; cases h
      | ok lc =>
        obtain ⟨len, c2⟩ := lc
        simp only [hr2] at h
        by_cases ht : t = 255
        · rw [if_pos ht] at h
          obtain ⟨rfl, rfl, rfl⟩ : B = B' ∧ U = U' ∧ setPos c2 (c2.pos + 1) = c' := by
            injection h with h2
            simp only [Prod.mk.injEq] at h2
            exact ⟨h2.1, h2.2.1, h2.2.2⟩
          refine ⟨[], ?_, rfl, ?_⟩
          · simp only [parseColumn, hr1, hr2, if_pos ht]
          · exact ⟨(by intro wv hw; cases hw), (by intro p hp; cases hp)⟩
        · rw [if_neg ht] at h
          cases hp : decodePixels len 0 (setPos c2 (c2.pos + 1)) x w t B U with
          | error e => simp only [hp] at h; cases h
          | ok buc =>
            obtain ⟨B1, U1, c4⟩ := buc
            simp only [hp] at h
            cases hpad : readU8 c4 with
            | error e => simp only [hpad] at h; cases h
            | ok pc5 =>
              obtain ⟨padv, c5⟩ := pc5
              simp only [hpad] at h
              obtain ⟨ps, hpc, hB, hbd, hne⟩ := ih c5 x w B1 U1 B' U' c' h
              obtain ⟨bs, hrb, hB1, hbd1⟩ := decodePixels_spec _ _ _ _ _ _ _ _ _ _ _ hp
              refine ⟨(t, bs) :: ps, ?_, ?_, ?_, ?_⟩
              · simp only [parseColumn, hr1, hr2, if_neg ht, hrb, hpad, hpc]
              · rw [columnWrites, applyWrites_append, ← hB1, hB]
              · intro wv hw
                rcases List.mem_append.mp hw with hw | hw
                · exact hbd1 wv hw
                · have := hbd wv hw
                  rwa [hB1, length_applyWrites] at this
              · intro p hp2
                rcases List.mem_cons.mp hp2 with hp2 | hp2
                · subst hp2; exact ht
                · exact hne p hp2

/-- The column loop is the column parses plus `colsWrites`. -/
theorem decodeColumns_spec (wad : List Nat) (base w : Nat) :
    ∀ (cols : List Nat) (x : Nat) (B : List Nat) (U : Used)
      (B' : List Nat) (U' : Used),
    decodeColumns wad base w cols x B U = .ok (B', U') →
    ∃ css, parseColumns wad base w cols = .ok css ∧
      B' = applyWrites (colsWrites w x css) B ∧
      (∀ wv ∈ colsWrites w x css, wv.1 < B.length) ∧
      (∀ ps ∈ css, ∀ p ∈ ps, p.1 ≠ 255) := by
  intro cols
  induction cols with
  | nil =>
    intro x B U B' U' h
    simp only [decodeColumns] at h
    obtain ⟨rfl, rfl⟩ : B = B' ∧ U = U' := by
      injection h with h2
      simp only [Prod.mk.injEq] at h2
      exact ⟨h2.1, h2.2⟩
    exact ⟨[], rfl, rfl, ⟨(by intro wv hw; cases hw), (by intro ps hp; cases hp)⟩⟩
  | cons col rest ih =>
    intro x B U B' U' h
    simp only [decodeColumns] at h
    cases hc : decodeColumn (wad.length + 1) ⟨wad, base + col⟩ x w B U with
    | error e => rw [hc] at h; cases h
    | ok buc =>
      obtain ⟨B1, U1, cend⟩ := buc
      rw [hc] at h
      obtain ⟨css, hcss, hB, hbd, hne⟩ := ih (x + 1) B1 U1 B' U' h
      obtain ⟨ps, hps, hB1, hbd1, hne1⟩ := decodeColumn_spec _ _ _ _ _ _ _ _ _ hc
      refine ⟨ps :: css, ?_, ?_, ?_, ?_⟩
      · simp only [parseColumns, hps, hcss]
      · rw [colsWrites, applyWrites_append, ← hB1, hB]
      · intro wv hw
        rcases List.mem_append.mp hw with hw | hw
        · exact hbd1 wv hw
        · have := hbd wv hw
          rwa [hB1, length_applyWrites] at this
      · intro ps2 hp2
        rcases List.mem_cons.mp hp2 with hp2 | hp2
        · subst hp2; exact hne1
        · exact hne ps2 hp2

/-- The sprite decoder refines "parse the posts, then perform their writes on
a fully-transparent buffer": the central characterization behind C1 and C3. -/
theorem decodeSprite_spec (wad : List Nat) (lump : Filelump) (U : Used)
    (r : DecodedImage) (h : decodeSprite wad lump U = .ok r) :
    ∃ css, parseSprite wad lump = .ok (r.width, r.height, css) ∧
      r.pixels = renderSprite r.width r.height css ∧
      (∀ wv ∈ colsWrites r.width 0 css, wv.1 < r.width * r.height) ∧
      (∀ ps ∈ css, ∀ p ∈ ps, p.1 ≠ 255) := by
  simp only [decodeSprite] at h
  cases h1 : readU16le ⟨wad, lump.filepos⟩ with
  | error e => simp only [h1] at h; cases h
  | ok wc =>
    obtain ⟨w, c1⟩ := wc
    simp only [h1] at h
    cases h2 : readU16le c1 with
    | error e => simp only [h2] at h; cases h
    | ok hc =>
      obtain ⟨ht, c2⟩ := hc
      simp only [h2] at h
      cases h3 : readU16le c2 with
      | error e => simp only [h3] at h; cases h
      | ok oc =>
        obtain ⟨o1, c3⟩ := oc
        simp only [h3] at h
        cases h4 : readU16le c3 with
        | error e => simp only [h4] at h; cases h
        | ok oc2 =>
          obtain ⟨o2, c4⟩ := oc2
          simp only [h4] at h
          cases h5 : readU32s c4 w with
          | error e => simp only [h5] at h; cases h
          | ok cc =>
            obtain ⟨colofs, c5⟩ := cc
            simp only [h5] at h
            cases h6 : decodeColumns wad lump.filepos w colofs 0
                (List.replicate (w * ht) TRANSPARENT) U with
            | error e => simp only [h6] at h; cases h
            | ok bu =>
              obtain ⟨B', U'⟩ := bu
              simp only [h6] at h
              injection h with h7
              subst h7
              obtain ⟨css, hcss, hB, hbd, hne⟩ := decodeColumns_spec _ _ _ _ _ _ _ _ _ h6
              refine ⟨css, ?_, ?_, ?_, hne⟩
              · simp only [parseSprite, h1, h2, h3, h4, h5, hcss]
              · exact hB
              · intro wv hw
                have := hbd wv hw
                rwa [List.length_replicate] at this

/-- C1 (amended): for every sprite lump that `save_sprite` decodes
successfully, the pixel buffer is exactly the result of performing, in order,
each parsed post's writes — byte `dy` of a post with top-delta `t` in column
`x` lands at index `x + ((t + dy) % 256) * width`, the row being the wrapping
8-bit sum — starting from a `width*height` buffer of the transparent sentinel
`TRANSPARENT = 251`; no parsed post has top-delta 255, and every index hit by
no write (in particular every pixel of a column whose first post is the
255 terminator, which parses to an empty post list) still holds 251. -/
theorem c1_theorem (wad : List Nat) (lump : Filelump) (U : Used)
    (r : DecodedImage) (h : decodeSprite wad lump U = .ok r) :
    ∃ css, parseSprite wad lump = .ok (r.width, r.height, css) ∧
      (∀ ps ∈ css, ∀ p ∈ ps, p.1 ≠ 255) ∧
      r.pixels = renderSprite r.width r.height css ∧
      (∀ i, i < r.width * r.height →
        (∀ wv ∈ colsWrites r.width 0 css, wv.1 ≠ i) →
        r.pixels[i]? = some TRANSPARENT) := by
  obtain ⟨css, hcss, hpix, hbd, hne⟩ := decodeSprite_spec wad lump U r h
  refine ⟨css, hcss, hne, hpix, ?_⟩
  intro i hi hnw
  rw [hpix, renderSprite, getElem?_applyWrites_notMem _ _ _ hnw,
    getElem?_replicate_lt _ _ _ hi]

/-- C1 as stated is false: at `cexWad` the single post has top-delta 200 and
length 60, so the claim's (non-wrapping) index formula `x + (t+dy)*width`
only covers rows 200–259 and never row 0; the claim therefore forces pixel 0
to be the sentinel 251.  The decode succeeds, and because the code's row
index is the wrapping 8-bit sum `topdelta + dy`, pixel 0 actually holds the
posted value 7. -/
theorem c1_counterexample :
    parseSprite cexWad cexLump = .ok (1, 258, [[(200, List.replicate 60 7)]]) ∧
    (∀ dy, dy < 60 → 0 + (200 + dy) * 1 ≠ 0) ∧
    ¬ (∀ r, decodeSprite cexWad cexLump (fun _ => false) = .ok r →
        r.pixels[0]? = some TRANSPARENT) := by
  refine ⟨rfl, by decide, ?_⟩
  intro hclaim
  have hval : pixAt (decodeSprite cexWad cexLump (fun _ => false)) 0 = some 7 := by
    rfl
  cases hd : decodeSprite cexWad cexLump (fun _ => false) with
  | error e => rw [hd] at hval; cases hval
  | ok r =>
    have h251 := hclaim r hd
    rw [hd] at hval
    simp only [pixAt] at hval
    rw [h251] at hval
    cases hval

theorem c1_witness :
    decodeSprite c1wWad c1wLump (fun _ => false) = .ok c1wImg ∧
    (∃ css, parseSprite c1wWad c1wLump = .ok (c1wImg.width, c1wImg.height, css) ∧
      (∀ ps ∈ css, ∀ p ∈ ps, p.1 ≠ 255) ∧
      c1wImg.pixels = renderSprite c1wImg.width c1wImg.height css ∧
      (∀ i, i < c1wImg.width * c1wImg.height →
        (∀ wv ∈ colsWrites c1wImg.width 0 css, wv.1 ≠ i) →
        c1wImg.pixels[i]? = some TRANSPARENT)) :=
  ⟨rfl, c1_theorem c1wWad c1wLump (fun _ => false) c1wImg rfl⟩

theorem decodePixels_ok_of :
    ∀ (k d0 : Nat) (c : Cursor) (x w t : Nat) (B : List Nat) (U : Used)
      (bs : List Nat) (c' : Cursor),
    readBytes c k = .ok (bs, c') →
    (∀ wv ∈ pixelWrites x w t d0 bs, wv.1 < B.length) →
    ∃ B1 U1, decodePixels k d0 c x w t B U = .ok (B1, U1, c') ∧
      B1.length = B.length := by
  intro k
  induction k with
  | zero =>
    intro d0 c x w t B U bs c' hr hbd
    simp only [readBytes] at hr
    obtain ⟨rfl, rfl⟩ : [] = bs ∧ c = c' := by
      injection hr with h2
      simp only [Prod.mk.injEq] at h2
      exact ⟨h2.1, h2.2⟩
    exact ⟨B, U, rfl, rfl⟩
  | succ k ih =>
    intro d0 c x w t B U bs c' hr hbd
    simp only [readBytes] at hr
    cases h8 : readU8 c with
    | error e => rw [h8] at hr; cases hr
    | ok pc =>
      obtain ⟨b, c1⟩ := pc
      rw [h8] at hr
      cases hrb : readBytes c1 k with
      | error e => simp only [hrb] at hr; cases hr
      | ok bsc =>
        obtain ⟨bs', c''⟩ := bsc
        simp only [hrb] at hr
        obtain ⟨rfl, rfl⟩ : b :: bs' = bs ∧ c'' = c' := by
          injection hr with h2
          simp only [Prod.mk.injEq] at h2
          exact ⟨h2.1, h2.2⟩
        have hhead : x + (t + d0) % 256 * w < B.length :=
          hbd (x + (t + d0) % 256 * w, b)
            (by simp only [pixelWrites]; exact List.mem_cons_self _ _)
        have hset : setPix B (x + (t + d0) % 256 * w) b
            = .ok (B.set (x + (t + d0) % 256 * w) b) := by
          rw [setPix, if_pos hhead]
        obtain ⟨B1, U1, hdec, hlen⟩ := ih (d0 + 1) c1 x w t
          (B.set (x + (t + d0) % 256 * w) b) (markUsed U b) bs' c'' hrb
          (by
            intro wv hw
            rw [List.length_set]
            exact hbd wv (by simp only [pixelWrites]; exact List.mem_cons_of_mem _ hw))
        refine ⟨B1, U1, ?_, by rw [hlen, List.length_set]⟩
        simp only [decodePixels, h8, hset, hdec]

theorem decodePixels_err :
    ∀ (k d0 : Nat) (c : Cursor) (x w t : Nat) (B : List Nat) (U : Used)
      (bs : List Nat) (c' : Cursor),
    readBytes c k = .ok (bs, c') →
    (∃ wv ∈ pixelWrites x w t d0 bs, B.length ≤ wv.1) →
    decodePixels k d0 c x w t B U = .error .indexOutOfRange := by
  intro k
  induction k with
  | zero =>
    intro d0 c x w t B U bs c' hr hex
    simp only [readBytes] at hr
    obtain ⟨rfl, -⟩ : [] = bs ∧ c = c' := by
      injection hr with h2
      simp only [Prod.mk.injEq] at h2
      exact ⟨h2.1, h2.2⟩
    obtain ⟨wv, hw, -⟩ := hex
    simp only [pixelWrites] at hw
    cases hw
  | succ k ih =>
    intro d0 c x w t B U bs c' hr hex
    simp only [readBytes] at hr
    cases h8 : readU8 c with
    | error e => rw [h8] at hr; cases hr
    | ok pc =>
      obtain ⟨b, c1⟩ := pc
      rw [h8] at hr
      cases hrb : readBytes c1 k with
      | error e => simp only [hrb] at hr; cases hr
      | ok bsc =>
        obtain ⟨bs', c''⟩ := bsc
        simp only [hrb] at hr
        obtain ⟨rfl, rfl⟩ : b :: bs' = bs ∧ c'' = c' := by
          injection hr with h2
          simp only [Prod.mk.injEq] at h2
          exact ⟨h2.1, h2.2⟩
        by_cases hhead : x + (t + d0) % 256 * w < B.length
        · have hset : setPix B (x + (t + d0) % 256 * w) b
              = .ok (B.set (x + (t + d0) % 256 * w) b) := by
            rw [setPix, if_pos hhead]
          obtain ⟨wv, hw, hge⟩ := hex
          simp only [pixelWrites] at hw
          rcases List.mem_cons.mp hw with hw | hw
          · subst hw
            simp only at hge
            omega
          · have htail := ih (d0 + 1) c1 x w t
              (B.set (x + (t + d0) % 256 * w) b) (markUsed U b) bs' c'' hrb
              ⟨wv, hw, by rw [List.length_set]; exact hge⟩
            simp only [decodePixels, h8, hset, htail]
        · have hset : setPix B (x + (t + d0) % 256 * w) b
              = .error .indexOutOfRange := by
            rw [setPix, if_neg hhead]
          simp only [decodePixels, h8, hset]

theorem decodeColumn_ok_of :
    ∀ (fuel : Nat) (c : Cursor) (x w : Nat) (B : List Nat) (U : Used)
      (ps : List (Nat × List Nat)) (c' : Cursor),
    parseColumn fuel c = .ok (ps, c') →
    (∀ wv ∈ columnWrites x w ps, wv.1 < B.length) →
    ∃ B1 U1, decodeColumn fuel c x w B U = .ok (B1, U1, c') ∧
      B1.length = B.length := by
  intro fuel
  induction fuel with
  | zero => intro c x w B U ps c' hp; cases hp
  | succ fuel ih =>
    intro c x w B U ps c' hp hbd
    simp only [parseColumn] at hp
    cases hr1 : readU8 c with
    | error e => rw [hr1] at hp; cases hp
    | ok tc =>
      obtain ⟨t, c1⟩ := tc
      rw [hr1] at hp
      cases hr2 : readU8 c1 with
      | error e => simp only [hr2] at hp; cases hp
      | ok lc =>
        obtain ⟨len, c2⟩ := lc
        simp only [hr2] at hp
        by_cases ht : t = 255
        · rw [if_pos ht] at hp
          obtain ⟨rfl, rfl⟩ : [] = ps ∧ setPos c2 (c2.pos + 1) = c' := by
            injection hp with h2
            simp only [Prod.mk.injEq] at h2
            exact ⟨h2.1, h2.2⟩
          exact ⟨B, U, by simp only [decodeColumn, hr1, hr2, if_pos ht], rfl⟩
        · rw [if_neg ht] at hp
          cases hrb : readBytes (setPos c2 (c2.pos + 1)) len with
          | error e => simp only [hrb] at hp; cases hp
          | ok bsc =>
            obtain ⟨bs, c4⟩ := bsc
            simp only [hrb] at hp
            cases hpad : readU8 c4 with
            | error e => simp only [hpad] at hp; cases hp
            | ok pc5 =>
              obtain ⟨pv, c5⟩ := pc5
              simp only [hpad] at hp
              cases hpc : parseColumn fuel c5 with
              | error e => simp only [hpc] at hp; cases hp
              | ok pscend =>
                obtain ⟨ps', cend⟩ := pscend
                simp only [hpc] at hp
                obtain ⟨rfl, rfl⟩ : (t, bs) :: ps' = ps ∧ cend = c' := by
                  injection hp with h2
                  simp only [Prod.mk.injEq] at h2
                  exact ⟨h2.1, h2.2⟩
                simp only [columnWrites] at hbd
                obtain ⟨B1, U1, hdp, hlen1⟩ :=
                  decodePixels_ok_of len 0 (setPos c2 (c2.pos + 1)) x w t B U bs c4
                    hrb (fun wv hw => hbd wv (List.mem_append_left _ hw))
                obtain ⟨B2, U2, hdc, hlen2⟩ := ih c5 x w B1 U1 ps' cend hpc
                  (fun wv hw => by
                    rw [hlen1]
                    exact hbd wv (List.mem_append_right _ hw))
                refine ⟨B2, U2, ?_, hlen2.trans hlen1⟩
                simp only [decodeColumn, hr1, hr2, if_neg ht, hdp, hpad, hdc]

theorem decodeColumn_err :
    ∀ (fuel : Nat) (c : Cursor) (x w : Nat) (B : List Nat) (U : Used)
      (ps : List (Nat × List Nat)) (c' : Cursor),
    parseColumn fuel c = .ok (ps, c') →
    (∃ wv ∈ columnWrites x w ps, B.length ≤ wv.1) →
    decodeColumn fuel c x w B U = .error .indexOutOfRange := by
  intro fuel
  induction fuel with
  | zero => intro c x w B U ps c' hp; cases hp
  | succ fuel ih =>
    intro c x w B U ps c' hp hex
    simp only [parseColumn] at hp
    cases hr1 : readU8 c with
    | error e => rw [hr1] at hp; cases hp
    | ok tc =>
      obtain ⟨t, c1⟩ := tc
      rw [hr1] at hp
      cases hr2 : readU8 c1 with
      | error e => simp only [hr2] at hp; cases hp
      | ok lc =>
        obtain ⟨len, c2⟩ := lc
        simp only [hr2] at hp
        by_cases ht : t = 255
        · rw [if_pos ht] at hp
          obtain ⟨rfl, -⟩ : [] = ps ∧ setPos c2 (c2.pos + 1) = c' := by
            injection hp with h2
            simp only [Prod.mk.injEq] at h2
            exact ⟨h2.1, h2.2⟩
          obtain ⟨wv, hw, -⟩ := hex
          simp only [columnWrites] at hw
          cases hw
        · rw [if_neg ht] at hp
          cases hrb : readBytes (setPos c2 (c2.pos + 1)) len with
          | error e => simp only [hrb] at hp; cases hp
          | ok bsc =>
            obtain ⟨bs, c4⟩ := bsc
            simp only [hrb] at hp
            cases hpad : readU8 c4 with
            | error e => simp only [hpad] at hp; cases hp
            | ok pc5 =>
              obtain ⟨pv, c5⟩ := pc5
              simp only [hpad] at hp
              cases hpc : parseColumn fuel c5 with
              | error e => simp only [hpc] at hp; cases hp
              | ok pscend =>
                obtain ⟨ps', cend⟩ := pscend
                simp only [hpc] at hp
                obtain ⟨rfl, rfl⟩ : (t, bs) :: ps' = ps ∧ cend = c' := by
                  injection hp with h2
                  simp only [Prod.mk.injEq] at h2
                  exact ⟨h2.1, h2.2⟩
                by_cases hall : ∀ wv ∈ pixelWrites x w t 0 bs, wv.1 < B.length
                · obtain ⟨B1, U1, hdp, hlen1⟩ :=
                    decodePixels_ok_of len 0 (setPos c2 (c2.pos + 1)) x w t B U bs
                      c4 hrb hall
                  obtain ⟨wv, hw, hge⟩ := hex
                  simp only [columnWrites] at hw
                  rcases List.mem_append.mp hw with hw | hw
                  · have := hall wv hw
                    omega
                  · have htail := ih c5 x w B1 U1 ps' cend hpc
                      ⟨wv, hw, by rw [hlen1]; exact hge⟩
                    simp only [decodeColumn, hr1, hr2, if_neg ht, hdp, hpad, htail]
                · push_neg at hall
                  obtain ⟨wv, hw, hge⟩ := hall
                  have hdp := decodePixels_err len 0 (setPos c2 (c2.pos + 1)) x w t
                    B U bs c4 hrb ⟨wv, hw, by omega⟩
                  simp only [decodeColumn, hr1, hr2, if_neg ht, hdp]

theorem decodeColumns_ok_of (wad : List Nat) (base w : Nat) :
    ∀ (cols : List Nat) (x : Nat) (B : List Nat) (U : Used)
      (css : List (List (Nat × List Nat))),
    parseColumns wad base w cols = .ok css →
    (∀ wv ∈ colsWrites w x css, wv.1 < B.length) →
    ∃ B1 U1, decodeColumns wad base w cols x B U = .ok (B1, U1) ∧
      B1.length = B.length := by
  intro cols
  induction cols with
  | nil =>
    intro x B U css hp hbd
    simp only [parseColumns] at hp
    obtain rfl : [] = css := by injection hp
    exact ⟨B, U, rfl, rfl⟩
  | cons col rest ih =>
    intro x B U css hp hbd
    simp only [parseColumns] at hp
    cases hpc : parseColumn (wad.length + 1) ⟨wad, base + col⟩ with
    | error e => rw [hpc] at hp; cases hp
    | ok psc =>
      obtain ⟨ps, cx⟩ := psc
      rw [hpc] at hp
      cases hrest : parseColumns wad base w rest with
      | error e => simp only [hrest] at hp; cases hp
      | ok css' =>
        simp only [hrest] at hp
        obtain rfl : ps :: css' = css := by injection hp
        simp only [colsWrites] at hbd
        obtain ⟨B1, U1, hdc, hlen1⟩ := decodeColumn_ok_of _ _ x w B U ps cx hpc
          (fun wv hw => hbd wv (List.mem_append_left _ hw))
        obtain ⟨B2, U2, hdcs, hlen2⟩ := ih (x + 1) B1 U1 css' hrest
          (fun wv hw => by
            rw [hlen1]
            exact hbd wv (List.mem_append_right _ hw))
        refine ⟨B2, U2, ?_, hlen2.trans hlen1⟩
        simp only [decodeColumns, hdc, hdcs]

theorem decodeColumns_err (wad : List Nat) (base w : Nat) :
    ∀ (cols : List Nat) (x : Nat) (B : List Nat) (U : Used)
      (css : List (List (Nat × List Nat))),
    parseColumns wad base w cols = .ok css →
    (∃ wv ∈ colsWrites w x css, B.length ≤ wv.1) →
    decodeColumns wad base w cols x B U = .error .indexOutOfRange := by
  intro cols
  induction cols with
  | nil =>
    intro x B U css hp hex
    simp only [parseColumns] at hp
    obtain rfl : [] = css := by injection hp
    obtain ⟨wv, hw, -⟩ := hex
    simp only [colsWrites] at hw
    cases hw
  | cons col rest ih =>
    intro x B U css hp hex
    simp only [parseColumns] at hp
    cases hpc : parseColumn (wad.length + 1) ⟨wad, base + col⟩ with
    | error e => rw [hpc] at hp; cases hp
    | ok psc =>
      obtain ⟨ps, cx⟩ := psc
      rw [hpc] at hp
      cases hrest : parseColumns wad base w rest with
      | error e => simp only [hrest] at hp; cases hp
      | ok css' =>
        simp only [hrest] at hp
        obtain rfl : ps :: css' = css := by injection hp
        by_cases hall : ∀ wv ∈ columnWrites x w ps, wv.1 < B.length
        · obtain ⟨B1, U1, hdc, hlen1⟩ := decodeColumn_ok_of _ _ x w B U ps cx hpc
            hall
          obtain ⟨wv, hw, hge⟩ := hex
          simp only [colsWrites] at hw
          rcases List.mem_append.mp hw with hw | hw
          · have := hall wv hw
            omega
          · have htail := ih (x + 1) B1 U1 css' hrest
              ⟨wv, hw, by rw [hlen1]; exact hge⟩
            simp only [decodeColumns, hdc, htail]
        · push_neg at hall
          obtain ⟨wv, hw, hge⟩ := hall
          have hdc := decodeColumn_err _ _ x w B U ps cx hpc ⟨wv, hw, by omega⟩
          simp only [decodeColumns, hdc]

/-- C3 (amended): pixel writes are bounds-checked — a write at an index at or
past the end of the buffer is refused with the unrecoverable
index-out-of-range error and stores nothing, whether or not the surrounding
decode succeeds.  Consequently a lump whose parsed posts contain any
out-of-range computed write index `x + ((t + dy) % 256) * width` makes the
decode fail with exactly that index-out-of-range error, and a successful
decode implies every computed write index lies inside the `width*height`
buffer, so no pixel is ever written outside it.  (A post whose top-delta
plus length merely exceeds the height can still decode when the height is
greater than 255 — see the counterexample — because the row sum wraps
at 256.) -/
theorem c3_theorem (wad : List Nat) (lump : Filelump) (U : Used)
    (w0 h0 : Nat) (cols : List (List (Nat × List Nat)))
    (hp : parseSprite wad lump = .ok (w0, h0, cols)) :
    ((∃ wv ∈ colsWrites w0 0 cols, w0 * h0 ≤ wv.1) →
      decodeSprite wad lump U = .error .indexOutOfRange) ∧
    (∀ r, decodeSprite wad lump U = .ok r →
      ∀ wv ∈ colsWrites w0 0 cols, wv.1 < w0 * h0) ∧
    (∀ (B : List Nat) (i v : Nat), B.length ≤ i →
      setPix B i v = .error .indexOutOfRange) := by
  have main : ∀ r, decodeSprite wad lump U = .ok r →
      ∀ wv ∈ colsWrites w0 0 cols, wv.1 < w0 * h0 := by
    intro r hr wv hw
    obtain ⟨css, hcss, _, hbd, _⟩ := decodeSprite_spec wad lump U r hr
    have heq := hp.symm.trans hcss
    injection heq with heq2
    obtain ⟨hw0, hh0, hcols⟩ : w0 = r.width ∧ h0 = r.height ∧ cols = css := by
      simp only [Prod.mk.injEq] at heq2
      exact ⟨heq2.1, heq2.2.1, heq2.2.2⟩
    subst hw0; subst hh0; subst hcols
    exact hbd wv hw
  refine ⟨?_, main, ?_⟩
  · rintro ⟨wv, hmem, hge⟩
    simp only [parseSprite] at hp
    cases h1 : readU16le ⟨wad, lump.filepos⟩ with
    | error e => simp only [h1] at hp; cases hp
    | ok wc =>
      obtain ⟨w, c1⟩ := wc
      simp only [h1] at hp
      cases h2 : readU16le c1 with
      | error e => simp only [h2] at hp; cases hp
      | ok hc =>
        obtain ⟨ht2, c2⟩ := hc
        simp only [h2] at hp
        cases h3 : readU16le c2 with
        | error e => simp only [h3] at hp; cases hp
        | ok oc =>
          obtain ⟨o1, c3⟩ := oc
          simp only [h3] at hp
          cases h4 : readU16le c3 with
          | error e => simp only [h4] at hp; cases hp
          | ok oc2 =>
            obtain ⟨o2, c4⟩ := oc2
            simp only [h4] at hp
            cases h5 : readU32s c4 w with
            | error e => simp only [h5] at hp; cases hp
            | ok cc =>
              obtain ⟨colofs, c5⟩ := cc
              simp only [h5] at hp
              cases h6 : parseColumns wad lump.filepos w colofs with
              | error e => simp only [h6] at hp; cases hp
              | ok css =>
                simp only [h6] at hp
                obtain ⟨hw, hht, hcss⟩ : w = w0 ∧ ht2 = h0 ∧ css = cols := by
                  injection hp with h7
                  simp only [Prod.mk.injEq] at h7
                  exact ⟨h7.1, h7.2.1, h7.2.2⟩
                subst hw; subst hht; subst hcss
                have herr := decodeColumns_err wad lump.filepos w colofs 0
                  (List.replicate (w * ht2) TRANSPARENT) U css h6
                  ⟨wv, hmem, by rw [List.length_replicate]; exact hge⟩
                simp only [decodeSprite, h1, h2, h3, h4, h5, herr]
  · intro B i v hle
    rw [setPix, if_neg (by omega)]

/-- C3 as stated is false: `cexWad`'s single post has
`topdelta + length = 260 > 258 = height`, so the claim requires the decode to
fail with an index-out-of-range error; but the wrapping 8-bit row sum keeps
every computed index in range (height 258 > 255), and the decode succeeds. -/
theorem c3_counterexample :
    parseSprite cexWad cexLump = .ok (1, 258, [[(200, List.replicate 60 7)]]) ∧
    258 < 200 + 60 ∧
    ¬ (∃ e, decodeSprite cexWad cexLump (fun _ => false) = .error e) := by
  refine ⟨rfl, by decide, ?_⟩
  rintro ⟨e, he⟩
  have hval : pixAt (decodeSprite cexWad cexLump (fun _ => false)) 0 = some 7 := by
    rfl
  rw [he] at hval
  cases hval

theorem c3_witness :
    parseSprite c3wWad c3wLump = .ok (1, 1, [[(5, [9])]]) ∧
    decodeSprite c3wWad c3wLump (fun _ => false) = .error .indexOutOfRange :=
  ⟨rfl, (c3_theorem c3wWad c3wLump (fun _ => false) 1 1 [[(5, [9])]] rfl).1
    ⟨(5, 9), by decide, by decide⟩⟩

theorem markUsed_mono (U : Used) (px i : Nat) (h : U i = true) :
    markUsed U px i = true := by
  unfold markUsed
  split
  · rfl
  · exact h

theorem decodePixels_mono :
    ∀ (k d0 : Nat) (c : Cursor) (x w t : Nat) (B : List Nat) (U : Used)
      (B' : List Nat) (U' : Used) (c' : Cursor),
    decodePixels k d0 c x w t B U = .ok (B', U', c') →
    ∀ i, U i = true → U' i = true := by
  intro k
  induction k with
  | zero =>
    intro d0 c x w t B U B' U' c' h i hi
    simp only [decodePixels] at h
    obtain ⟨-, rfl, -⟩ : B = B' ∧ U = U' ∧ c = c' := by
      injection h with h2
      simp only [Prod.mk.injEq] at h2
      exact ⟨h2.1, h2.2.1, h2.2.2⟩
    exact hi
  | succ k ih =>
    intro d0 c x w t B U B' U' c' h i hi
    simp only [decodePixels] at h
    cases hr : readU8 c with
    | error e => rw [hr] at h; cases h
    | ok pc =>
      obtain ⟨px, c1⟩ := pc
      rw [hr] at h
      cases hs : setPix B (x + (t + d0) % 256 * w) px with
      | error e => simp only [hs] at h; cases h
      | ok B1 =>
        simp only [hs] at h
        exact ih (d0 + 1) c1 x w t B1 (markUsed U px) B' U' c' h i
          (markUsed_mono U px i hi)

theorem decodeColumn_mono :
    ∀ (fuel : Nat) (c : Cursor) (x w : Nat) (B : List Nat) (U : Used)
      (B' : List Nat) (U' : Used) (c' : Cursor),
    decodeColumn fuel c x w B U = .ok (B', U', c') →
    ∀ i, U i = true → U' i = true := by
  intro fuel
  induction fuel with
  | zero => intro c x w B U B' U' c' h; cases h
  | succ fuel ih =>
    intro c x w B U B' U' c' h i hi
    simp only [decodeColumn] at h
    cases hr1 : readU8 c with
    | error e => rw [hr1] at h; cases h
    | ok tc =>
      obtain ⟨t, c1⟩ := tc
      rw [hr1] at h
      cases hr2 : readU8 c1 with
      | error e => simp only [hr2] at h; cases h
      | ok lc =>
        obtain ⟨len, c2⟩ := lc
        simp only [hr2] at h
        by_cases ht : t = 255
        · rw [if_pos ht] at h
          obtain ⟨-, rfl, -⟩ : B = B' ∧ U = U' ∧ setPos c2 (c2.pos + 1) = c' := by
            injection h with h2
            simp only [Prod.mk.injEq] at h2
            exact ⟨h2.1, h2.2.1, h2.2.2⟩
          exact hi
        · rw [if_neg ht] at h
          cases hp : decodePixels len 0 (setPos c2 (c2.pos + 1)) x w t B U with
          | error e => simp only [hp] at h; cases h
          | ok buc =>
            obtain ⟨B1, U1, c4⟩ := buc
            simp only [hp] at h
            cases hpad : readU8 c4 with
            | error e => simp only [hpad] at h; cases h
            | ok pc5 =>
              obtain ⟨padv, c5⟩ := pc5
              simp only [hpad] at h
              exact ih c5 x w B1 U1 B' U' c' h i
                (decodePixels_mono _ _ _ _ _ _ _ _ _ _ _ hp i hi)

theorem decodeColumns_mono (wad : List Nat) (base w : Nat) :
    ∀ (cols : List Nat) (x : Nat) (B : List Nat) (U : Used)
      (B' : List Nat) (U' : Used),
    decodeColumns wad base w cols x B U = .ok (B', U') →
    ∀ i, U i = true → U' i = true := by
  intro cols
  induction cols with
  | nil =>
    intro x B U B' U' h i hi
    simp only [decodeColumns] at h
    obtain ⟨-, rfl⟩ : B = B' ∧ U = U' := by
      injection h with h2
      simp only [Prod.mk.injEq] at h2
      exact ⟨h2.1, h2.2⟩
    exact hi
  | cons col rest ih =>
    intro x B U B' U' h i hi
    simp only [decodeColumns] at h
    cases hc : decodeColumn (wad.length + 1) ⟨wad, base + col⟩ x w B U with
    | error e => rw [hc] at h; cases h
    | ok buc =>
      obtain ⟨B1, U1, cend⟩ := buc
      rw [hc] at h
      exact ih (x + 1) B1 U1 B' U' h i
        (decodeColumn_mono _ _ _ _ _ _ _ _ _ hc i hi)

theorem decodeSprite_mono (wad : List Nat) (lump : Filelump) (U : Used)
    (r : DecodedImage) (h : decodeSprite wad lump U = .ok r) :
    ∀ i, U i = true → r.used i = true := by
  intro i hi
  simp only [decodeSprite] at h
  cases h1 : readU16le ⟨wad, lump.filepos⟩ with
  | error e => simp only [h1] at h; cases h
  | ok wc =>
    obtain ⟨w, c1⟩ := wc
    simp only [h1] at h
    cases h2 : readU16le c1 with
    | error e => simp only [h2] at h; cases h
    | ok hc =>
      obtain ⟨ht, c2⟩ := hc
      simp only [h2] at h
      cases h3 : readU16le c2 with
      | error e => simp only [h3] at h; cases h
      | ok oc =>
        obtain ⟨o1, c3⟩ := oc
        simp only [h3] at h
        cases h4 : readU16le c3 with
        | error e => simp only [h4] at h; cases h
        | ok oc2 =>
          obtain ⟨o2, c4⟩ := oc2
          simp only [h4] at h
          cases h5 : readU32s c4 w with
          | error e => simp only [h5] at h; cases h
          | ok cc =>
            obtain ⟨colofs, c5⟩ := cc
            simp only [h5] at h
            cases h6 : decodeColumns wad lump.filepos w colofs 0
                (List.replicate (w * ht) TRANSPARENT) U with
            | error e => simp only [h6] at h; cases h
            | ok bu =>
              obtain ⟨B', U'⟩ := bu
              simp only [h6] at h
              injection h with h7
              subst h7
              exact decodeColumns_mono _ _ _ _ _ _ _ _ _ h6 i hi

/-- C10: each `save_sprite` call only ever sets entries of the shared
256-entry used-colour tracker to `true` (`used_colors[px as usize] = true`);
it never clears one.  Hence any index that was `true` before a call is still
`true` after it, and the used-colour set grows monotonically across the
run's sequence of calls. -/
theorem c10_theorem (wad : List Nat) (lump : Filelump) (up : Bool) (U : Used)
    (U' : Used) (h : saveSprite wad lump up U = .ok U') :
    ∀ i, U i = true → U' i = true := by
  intro i hi
  simp only [saveSprite] at h
  cases hd : decodeSprite wad lump U with
  | error e => rw [hd] at h; cases h
  | ok img =>
    rw [hd] at h
    injection h with h2
    subst h2
    exact decodeSprite_mono wad lump U img hd i hi

theorem c10_witness :
    saveSprite c1wWad c1wLump false c10U = .ok (markUsed (markUsed c10U 1) 2) ∧
    c10U 17 = true ∧ markUsed (markUsed c10U 1) 2 17 = true :=
  ⟨rfl, rfl,
    c10_theorem c1wWad c1wLump false c10U (markUsed (markUsed c10U 1) 2) rfl 17 rfl⟩

theorem spriteTake_eq (f : Filelump → List Nat) :
    ∀ dir : List Filelump, (∀ l ∈ dir, lumpName l = .ok (f l)) →
    spriteTake dir = .ok (dir.take (dir.findIdx (fun l => f l == SEND))) := by
  intro dir
  induction dir with
  | nil => intro _; rfl
  | cons l rest ih =>
    intro hn
    have hhead : lumpName l = .ok (f l) := hn l (List.mem_cons_self _ _)
    have htail := fun l2 h2 => hn l2 (List.mem_cons_of_mem _ h2)
    simp only [spriteTake, hhead]
    by_cases hse : f l = SEND
    · simp [List.findIdx_cons, hse]
    · rw [if_neg hse, ih htail]
      have hb : (f l == SEND) = false := beq_eq_false_iff_ne.mpr hse
      simp [List.findIdx_cons, hb, List.take_succ_cons]

theorem selectSprites_eq (f : Filelump → List Nat) :
    ∀ dir : List Filelump, (∀ l ∈ dir, lumpName l = .ok (f l)) →
    selectSprites dir = .ok (specSpriteRange f dir) := by
  intro dir
  induction dir with
  | nil => intro _; rfl
  | cons l rest ih =>
    intro hn
    have hhead : lumpName l = .ok (f l) := hn l (List.mem_cons_self _ _)
    have htail := fun l2 h2 => hn l2 (List.mem_cons_of_mem _ h2)
    simp only [selectSprites, hhead]
    by_cases hss : f l = SSTART
    · rw [if_pos hss, spriteTake_eq f rest htail]
      simp [specSpriteRange, List.findIdx_cons, hss]
    · rw [if_neg hss, ih htail]
      have hb : (f l == SSTART) = false := beq_eq_false_iff_ne.mpr hss
      simp [specSpriteRange, List.findIdx_cons, hb, List.drop_succ_cons]

theorem selectFaces_eq (f : Filelump → List Nat) :
    ∀ dir : List Filelump, (∀ l ∈ dir, lumpName l = .ok (f l)) →
    selectFaces dir = .ok (dir.filter (fun l => startsWithBytes STF (f l))) := by
  intro dir
  induction dir with
  | nil => intro _; rfl
  | cons l rest ih =>
    intro hn
    have hhead : lumpName l = .ok (f l) := hn l (List.mem_cons_self _ _)
    have htail := fun l2 h2 => hn l2 (List.mem_cons_of_mem _ h2)
    simp only [selectFaces, hhead, ih htail, List.filter_cons]

/-- C2 (amended): when every directory name decodes (to `f`), the lumps the
run converts are exactly the lumps strictly between the first lump named
`"S_START"` and the next lump named `"S_END"` in directory order, plus every
lump whose name starts with `"STF"` — with both name comparisons
case-sensitive (exact byte equality), not case-independent. -/
theorem c2_theorem (dir : List Filelump) (f : Filelump → List Nat)
    (hn : ∀ l ∈ dir, lumpName l = .ok (f l)) :
    selectSprites dir = .ok (specSpriteRange f dir) ∧
    selectFaces dir = .ok (dir.filter (fun l => startsWithBytes STF (f l))) :=
  ⟨selectSprites_eq f dir hn, selectFaces_eq f dir hn⟩

/-- C2 as stated is false: on a directory whose range markers are spelled in
lower case, the code's exact comparisons select nothing at all, while the
claim's case-independent rule selects the lump `"A"` between them. -/
theorem c2_counterexample :
    selectSprites c2dir = .ok [] ∧ selectFaces c2dir = .ok [] ∧
    specConvertedCI [loS, [65], loE] = [[65]] :=
  ⟨rfl, rfl, by decide⟩

theorem c2_witness :
    (∀ l ∈ c2wDir, lumpName l = .ok (c2wF l)) ∧
    selectSprites c2wDir = .ok (specSpriteRange c2wF c2wDir) ∧
    selectFaces c2wDir = .ok (c2wDir.filter (fun l => startsWithBytes STF (c2wF l))) :=
  have hn : ∀ l ∈ c2wDir, lumpName l = .ok (c2wF l) := by decide
  ⟨hn, (c2_theorem c2wDir c2wF hn).1, (c2_theorem c2wDir c2wF hn).2⟩

/-- The final `assert!`'s condition: `TRANSPARENT` is among the unused colour
indexes exactly when the tracker does not hold `true` at `TRANSPARENT`. -/
theorem unusedAny (U : Used) :
    (((List.range 256).filter (fun i => ! U i)).any (fun b => b == TRANSPARENT))
      = ! U TRANSPARENT := by
  cases hU : U TRANSPARENT with
  | true =>
    rw [Bool.not_true]
    rw [List.any_eq_false]
    intro x hx
    obtain ⟨hxr, hxu⟩ := List.mem_filter.mp hx
    intro hxeq
    have hx251 : x = TRANSPARENT := by
      simpa using hxeq
    rw [hx251, hU] at hxu
    cases hxu
  | false =>
    rw [Bool.not_false]
    rw [List.any_eq_true]
    refine ⟨TRANSPARENT, List.mem_filter.mpr ⟨List.mem_range.mpr (by decide), ?_⟩, by simp⟩
    rw [hU]
    rfl

/-- C4: when the header, directory, palette, selection, and every decode of
the selected sprite and face lumps succeed, `go`'s outcome is decided only by
the final used-colour tracker: it fails with `transparencyViolated` exactly
when the sentinel 251 was recorded as a real decoded pixel value, and
succeeds otherwise.  The sentinel check thus runs strictly after both
conversion loops — a decode of the sentinel never aborts the run early — and
if no decoded pixel equals 251 the end-of-run check passes. -/
theorem c4_theorem (wad : List Nat) (up : Bool) (mb : List Nat)
    (ca cb : Cursor) (numl ofs : Nat) (cc2 : Cursor) (magic : List Nat)
    (dir : List Filelump) (pl : Filelump) (pal : List Nat)
    (sp fc : List Filelump) (U1 U2 : Used)
    (h1 : readBytes ⟨wad, 0⟩ 4 = .ok (mb, ca))
    (h2 : readU32le ca = .ok (numl, cb))
    (h3 : readU32le cb = .ok (ofs, cc2))
    (h4 : doomstr mb = .ok magic)
    (h5 : magic = IWAD ∨ magic = PWAD)
    (h6 : readDirectory wad numl ofs = .ok dir)
    (h7 : findPalette dir = .ok pl)
    (h8 : readPalette wad pl = .ok pal)
    (h9 : selectSprites dir = .ok sp)
    (h10 : decodeLumps wad up sp (fun _ => false) = .ok U1)
    (h11 : selectFaces dir = .ok fc)
    (h12 : decodeLumps wad up fc U1 = .ok U2) :
    runGo wad up =
      (if U2 TRANSPARENT = true then .error .transparencyViolated else .ok ()) := by
  simp only [runGo, h1, h2, h3, h4]
  rw [if_pos h5]
  simp only [h6, h7, h8, h9, h10, h11, h12]
  rw [unusedAny U2]
  cases hU : U2 TRANSPARENT <;> simp [hU]

theorem c4_witness : runGo c4wad false = .ok () := by
  have h := c4_theorem c4wad false [80, 87, 65, 68] ⟨c4wad, 4⟩ ⟨c4wad, 8⟩ 1 780
    ⟨c4wad, 12⟩ PWAD [⟨12, 768, [80, 76, 65, 89, 80, 65, 76, 0]⟩]
    ⟨12, 768, [80, 76, 65, 89, 80, 65, 76, 0]⟩ (List.replicate 768 0)
    [] [] (fun _ => false) (fun _ => false)
    rfl rfl rfl rfl (Or.inr rfl) rfl rfl rfl rfl rfl rfl rfl
  rw [h, if_neg (by decide)]

theorem foldl_set_map (l : List Nat) (g : Nat → Nat) (v : Nat) (B : List Nat) :
    l.foldl (fun b a => b.set (g a) v) B = applyWrites (l.map (fun a => (g a, v))) B := by
  rw [applyWrites, List.foldl_map]

theorem applyWrites_flatMap (l : List Nat) (g : Nat → List (Nat × Nat))
    (B : List Nat) :
    applyWrites (l.flatMap g) B = l.foldl (fun b a => applyWrites (g a) b) B := by
  induction l generalizing B with
  | nil => rfl
  | cons a l ih => rw [List.flatMap_cons, applyWrites_append, List.foldl_cons, ih]

theorem upscale_eq (w h : Nat) (px : List Nat) :
    upscale w h px =
      applyWrites (upWrites w h px) (List.replicate (w * 5 * (h * 6)) 0) := by
  have l5 : ∀ (y x dy : Nat) (b : List Nat),
      (List.range 5).foldl (fun b2 dx =>
        b2.set (x * 5 + dx + (y * 6 + dy) * (w * 5)) (px.getD (x + y * w) 0)) b
      = applyWrites ((List.range 5).map (fun dx =>
          (x * 5 + dx + (y * 6 + dy) * (w * 5), px.getD (x + y * w) 0))) b :=
    fun y x dy b => foldl_set_map _ _ _ _
  have l6 : ∀ (y x : Nat) (b : List Nat),
      (List.range 6).foldl (fun b2 dy =>
        applyWrites ((List.range 5).map (fun dx =>
          (x * 5 + dx + (y * 6 + dy) * (w * 5), px.getD (x + y * w) 0))) b2) b
      = applyWrites ((List.range 6).flatMap (fun dy => (List.range 5).map (fun dx =>
          (x * 5 + dx + (y * 6 + dy) * (w * 5), px.getD (x + y * w) 0)))) b :=
    fun y x b => (applyWrites_flatMap _ _ _).symm
  have l7 : ∀ (y : Nat) (b : List Nat),
      (List.range w).foldl (fun b2 x =>
        applyWrites ((List.range 6).flatMap (fun dy => (List.range 5).map (fun dx =>
          (x * 5 + dx + (y * 6 + dy) * (w * 5), px.getD (x + y * w) 0)))) b2) b
      = applyWrites ((List.range w).flatMap (fun x =>
          (List.range 6).flatMap (fun dy => (List.range 5).map (fun dx =>
            (x * 5 + dx + (y * 6 + dy) * (w * 5), px.getD (x + y * w) 0))))) b :=
    fun y b => (applyWrites_flatMap _ _ _).symm
  have l8 : ∀ (b : List Nat),
      (List.range h).foldl (fun b2 y =>
        applyWrites ((List.range w).flatMap (fun x =>
          (List.range 6).flatMap (fun dy => (List.range 5).map (fun dx =>
            (x * 5 + dx + (y * 6 + dy) * (w * 5), px.getD (x + y * w) 0))))) b2) b
      = applyWrites (upWrites w h px) b :=
    fun b => (applyWrites_flatMap _ _ _).symm
  simp only [upscale, l5, l6, l7, l8]

theorem mem_upWrites (w h : Nat) (px : List Nat) (d v : Nat) :
    (d, v) ∈ upWrites w h px ↔
    ∃ y, y < h ∧ ∃ x, x < w ∧ ∃ dy, dy < 6 ∧ ∃ dx, dx < 5 ∧
      x * 5 + dx + (y * 6 + dy) * (w * 5) = d ∧ px.getD (x + y * w) 0 = v := by
  simp [upWrites, List.mem_flatMap, List.mem_range, List.mem_map, Prod.mk.injEq,
    List.getD_eq_getElem?_getD]

theorem euclid_unique (n a a' b b' : Nat) (ha : a < n) (ha' : a' < n)
    (h : a + b * n = a' + b' * n) : a = a' ∧ b = b' := by
  have h1 : (a + b * n) % n = a := by
    rw [Nat.add_mul_mod_self_right, Nat.mod_eq_of_lt ha]
  have h2 : (a' + b' * n) % n = a' := by
    rw [Nat.add_mul_mod_self_right, Nat.mod_eq_of_lt ha']
  have haa : a = a' := by rw [← h1, h, h2]
  subst haa
  have hn : 0 < n := Nat.lt_of_le_of_lt (Nat.zero_le a) ha
  exact ⟨rfl, Nat.eq_of_mul_eq_mul_right hn (by omega)⟩

theorem upIdx_inj (w x x' dx dx' y y' dy dy' : Nat)
    (hx : x < w) (hx' : x' < w) (hdx : dx < 5) (hdx' : dx' < 5)
    (hdy : dy < 6) (hdy' : dy' < 6)
    (h : x * 5 + dx + (y * 6 + dy) * (w * 5) =
         x' * 5 + dx' + (y' * 6 + dy') * (w * 5)) :
    x = x' ∧ dx = dx' ∧ y = y' ∧ dy = dy' := by
  have ha : x * 5 + dx < w * 5 := by
    calc x * 5 + dx < x * 5 + 5 := by omega
    _ = (x + 1) * 5 := by ring
    _ ≤ w * 5 := Nat.mul_le_mul_right 5 hx
  have ha' : x' * 5 + dx' < w * 5 := by
    calc x' * 5 + dx' < x' * 5 + 5 := by omega
    _ = (x' + 1) * 5 := by ring
    _ ≤ w * 5 := Nat.mul_le_mul_right 5 hx'
  obtain ⟨hcol, hrow⟩ := euclid_unique (w * 5) _ _ _ _ ha ha' h
  obtain ⟨hdx2, hx2⟩ := euclid_unique 5 dx dx' x x' hdx hdx' (by omega)
  obtain ⟨hdy2, hy2⟩ := euclid_unique 6 dy dy' y y' hdy hdy' (by omega)
  exact ⟨hx2, hdx2, hy2, hdy2⟩

/-- C5: on a decoded `w*h` buffer the optional upsampling stage produces a
`(5w) × (6h)` image in which, for every source pixel `(x, y)` and every
`(dx, dy) ∈ [0,5)×[0,6)`, the destination pixel at `(5x+dx, 6y+dy)` (row
major with width `5w`) equals the source pixel at `(x, y)`. -/
theorem c5_theorem (w h : Nat) (px : List Nat) (hlen : px.length = w * h)
    (x y dx dy : Nat) (hx : x < w) (hy : y < h) (hdx : dx < 5) (hdy : dy < 6) :
    (upscale w h px).length = 5 * w * (6 * h) ∧
    (upscale w h px)[5 * x + dx + (6 * y + dy) * (5 * w)]? = px[x + y * w]? := by
  constructor
  · rw [upscale_eq, length_applyWrites, List.length_replicate]
    ring
  · have hidx : 5 * x + dx + (6 * y + dy) * (5 * w)
        = x * 5 + dx + (y * 6 + dy) * (w * 5) := by ring
    rw [hidx, upscale_eq]
    have hsrc_lt : x + y * w < px.length := by
      rw [hlen]
      calc x + y * w < w + y * w := by omega
      _ = (y + 1) * w := by ring
      _ ≤ h * w := Nat.mul_le_mul_right w hy
      _ = w * h := by ring
    have hd_lt : x * 5 + dx + (y * 6 + dy) * (w * 5) < w * 5 * (h * 6) := by
      calc x * 5 + dx + (y * 6 + dy) * (w * 5)
          < w * 5 + (y * 6 + dy) * (w * 5) := by
            have : x * 5 + dx < w * 5 := by
              calc x * 5 + dx < x * 5 + 5 := by omega
              _ = (x + 1) * 5 := by ring
              _ ≤ w * 5 := Nat.mul_le_mul_right 5 hx
            omega
      _ = (y * 6 + dy + 1) * (w * 5) := by ring
      _ ≤ h * 6 * (w * 5) := Nat.mul_le_mul_right (w * 5) (by omega)
      _ = w * 5 * (h * 6) := by ring
    rw [getElem?_applyWrites_of_mem _ _ _ (px.getD (x + y * w) 0)
      ((mem_upWrites w h px _ _).mpr ⟨y, hy, x, hx, dy, hdy, dx, hdx, rfl, rfl⟩)
      ?uniq (by rwa [List.length_replicate])]
    · rw [List.getElem?_eq_getElem hsrc_lt, List.getD_eq_getElem px 0 hsrc_lt]
    case uniq =>
      intro v hv
      obtain ⟨y', hy', x', hx', dy', hdy', dx', hdx', hd, hveq⟩ :=
        (mem_upWrites w h px _ _).mp hv
      obtain ⟨hx2, hdx2, hy2, hdy2⟩ :=
        upIdx_inj w x' x dx' dx y' y dy' dy hx' hx hdx' hdx hdy' hdy hd
      subst hx2; subst hy2
      exact hveq.symm

theorem c5_witness :
    c5wPx.length = 1 * 1 ∧
    (upscale 1 1 c5wPx).length = 5 * 1 * (6 * 1) ∧
    (upscale 1 1 c5wPx)[5 * 0 + 4 + (6 * 0 + 5) * (5 * 1)]? = c5wPx[0 + 0 * 1]? :=
  have h := c5_theorem 1 1 c5wPx rfl 0 0 4 5 (by decide) (by decide) (by decide)
    (by decide)
  ⟨rfl, h.1, h.2⟩

/-- C6: the transparency table handed to the PNG encoder has exactly 255
entries, holds 0 (fully transparent) at the sentinel index 251, holds 255
(fully opaque) at every other index below 255, and has no entry at index
255 — the last palette slot gets no explicit alpha and so defaults to
opaque. -/
theorem c6_theorem :
    TRNS.length = 255 ∧ TRNS[TRANSPARENT]? = some 0 ∧
    (∀ i, i < 255 → i ≠ TRANSPARENT → TRNS[i]? = some 255) ∧
    TRNS[255]? = none := by
  refine ⟨?_, ?_, ?_, ?_⟩
  · rw [TRNS, List.length_set, List.length_replicate]
  · exact getElem?_set_self_nat _ _ _ (by rw [List.length_replicate]; decide)
  · intro i hi hne
    rw [TRNS, getElem?_set_other_nat _ _ _ _ (Ne.symm hne),
      getElem?_replicate_lt _ _ _ hi]
  · rw [TRNS, getElem?_set_other_nat _ _ _ _ (by decide),
      List.getElem?_eq_none (by rw [List.length_replicate])]

theorem c6_witness : TRNS[7]? = some 255 :=
  c6_theorem.2.2.1 7 (by decide) (by decide)

theorem readU8_err (c : Cursor) (h : c.data.length ≤ c.pos) :
    readU8 c = .error .truncated := by
  rw [readU8, dif_neg (by omega)]

theorem readU8_err_inv (c : Cursor) (e : Err) (h : readU8 c = .error e) :
    e = .truncated := by
  rw [readU8] at h
  split at h
  · cases h
  · injection h with h2
    exact h2.symm

theorem readU8_ok_inv (c : Cursor) (b : Nat) (c1 : Cursor)
    (h : readU8 c = .ok (b, c1)) :
    c.pos < c.data.length ∧ c1 = ⟨c.data, c.pos + 1⟩ := by
  rw [readU8] at h
  split at h
  · refine ⟨by assumption, ?_⟩
    injection h with h2
    simp only [Prod.mk.injEq] at h2
    exact h2.2.symm
  · cases h

theorem readU8_ok2 (c : Cursor) (h : c.pos < c.data.length) :
    readU8 c = .ok (c.data[c.pos] % 256, ⟨c.data, c.pos + 1⟩) := by
  rw [readU8]
  exact dif_pos h

/-- C7 as stated is false: seeking a 3-byte cursor to absolute offset 5
succeeds (`std::io::Cursor` permits seeking past the end of its buffer); it
does not fail with an `OutOfRange` error as the claim requires. -/
theorem c7_counterexample :
    seekStart ⟨[0, 0, 0], 0⟩ 5 = .ok ⟨[0, 0, 0], 5⟩ ∧ (3 : Nat) < 5 ∧
    ¬ (∀ (c : Cursor) (off : Nat), c.data.length < off →
        seekStart c off = .error .outOfRange) := by
  refine ⟨rfl, by decide, ?_⟩
  intro hcl
  have h := hcl ⟨[0, 0, 0], 0⟩ 5 (by decide)
  exact absurd h (by decide)

/-- C7 (amended): a seek to any absolute offset — including one past the end
of the buffer — succeeds, merely setting the position; a fixed-width read
of 1, 2 or 4 bytes with insufficient bytes remaining (in particular any read
after such a seek) fails with a `Truncated` error. -/
theorem c7_theorem :
    (∀ (c : Cursor) (off : Nat), seekStart c off = .ok ⟨c.data, off⟩) ∧
    (∀ c : Cursor, c.data.length ≤ c.pos → readU8 c = .error .truncated) ∧
    (∀ c : Cursor, c.data.length < c.pos + 2 → readU16le c = .error .truncated) ∧
    (∀ c : Cursor, c.data.length < c.pos + 4 → readU32le c = .error .truncated) := by
  refine ⟨fun c off => rfl, readU8_err, ?_, ?_⟩
  · intro c hlt
    by_cases hp : c.pos < c.data.length
    · simp only [readU16le, readU8_ok2 c hp,
        readU8_err ⟨c.data, c.pos + 1⟩ (show c.data.length ≤ c.pos + 1 by omega)]
    · simp only [readU16le, readU8_err c (by omega)]
  · intro c hlt
    by_cases h1 : c.pos < c.data.length
    · by_cases h2 : c.pos + 1 < c.data.length
      · by_cases h3 : c.pos + 2 < c.data.length
        · simp only [readU32le, readU8_ok2 c h1,
            readU8_ok2 ⟨c.data, c.pos + 1⟩ (show c.pos + 1 < c.data.length from h2),
            readU8_ok2 ⟨c.data, c.pos + 1 + 1⟩
              (show c.pos + 1 + 1 < c.data.length by omega),
            readU8_err ⟨c.data, c.pos + 1 + 1 + 1⟩
              (show c.data.length ≤ c.pos + 1 + 1 + 1 by omega)]
        · simp only [readU32le, readU8_ok2 c h1,
            readU8_ok2 ⟨c.data, c.pos + 1⟩ (show c.pos + 1 < c.data.length from h2),
            readU8_err ⟨c.data, c.pos + 1 + 1⟩
              (show c.data.length ≤ c.pos + 1 + 1 by omega)]
      · simp only [readU32le, readU8_ok2 c h1,
          readU8_err ⟨c.data, c.pos + 1⟩ (show c.data.length ≤ c.pos + 1 by omega)]
    · simp only [readU32le, readU8_err c (by omega)]

theorem c7_witness :
    seekStart ⟨[1, 2], 0⟩ 9 = .ok ⟨[1, 2], 9⟩ ∧
    readU8 ⟨[1, 2], 9⟩ = .error .truncated ∧
    readU16le ⟨[1, 2], 1⟩ = .error .truncated ∧
    readU32le ⟨[1, 2], 0⟩ = .error .truncated :=
  ⟨c7_theorem.1 ⟨[1, 2], 0⟩ 9, c7_theorem.2.1 ⟨[1, 2], 9⟩ (by decide),
    c7_theorem.2.2.1 ⟨[1, 2], 1⟩ (by decide), c7_theorem.2.2.2 ⟨[1, 2], 0⟩ (by decide)⟩

theorem takeWhile_eq_take_self (p : Nat → Bool) :
    ∀ l : List Nat, l.takeWhile p = l.take (l.takeWhile p).length := by
  intro l
  induction l with
  | nil => rfl
  | cons a l ih =>
    cases hp : p a
    · simp [List.takeWhile_cons, hp]
    · simp only [List.takeWhile_cons, hp, if_true, List.length_cons,
        List.take_succ_cons, List.cons.injEq, true_and]
      exact ih

theorem takeWhile_boundary (p : Nat → Bool) :
    ∀ l : List Nat,
    (l.takeWhile p).length = l.length ∨
    ∃ b, l[(l.takeWhile p).length]? = some b ∧ p b = false := by
  intro l
  induction l with
  | nil => left; rfl
  | cons a l ih =>
    cases hp : p a
    · right
      exact ⟨a, by simp [List.takeWhile_cons, hp], hp⟩
    · rcases ih with h | ⟨b, hb, hpb⟩
      · left
        simp [List.takeWhile_cons, hp, h]
      · right
        exact ⟨b, by simp [List.takeWhile_cons, hp, hb], hpb⟩

/-- C8 (amended): `doomstr` truncates the name at the FIRST NUL byte —
everything from the first NUL on is dropped, trailing or not (for a
well-formed NUL-padded name this coincides with stripping trailing NULs) —
and it is a fatal decode error exactly when the bytes before the first NUL
do not decode as UTF-8 text; bytes after the first NUL are never examined. -/
theorem c8_theorem (nb : List Nat) :
    (∀ s, doomstr nb = .ok s →
      validUtf8 s = true ∧ s = nb.take s.length ∧ (∀ b ∈ s, b ≠ 0) ∧
      (s.length = nb.length ∨ nb[s.length]? = some 0)) ∧
    (∀ e, doomstr nb = .error e →
      e = .nonText ∧ validUtf8 (nb.takeWhile (fun b => b != 0)) = false) := by
  constructor
  · intro s hs
    simp only [doomstr] at hs
    split at hs
    case isTrue hv =>
      injection hs with hs2
      subst hs2
      refine ⟨hv, takeWhile_eq_take_self _ nb, ?_, ?_⟩
      · intro b hb
        have := List.mem_takeWhile_imp hb
        simpa using this
      · rcases takeWhile_boundary (fun b => b != 0) nb with h | ⟨b, hb, hpb⟩
        · left; exact h
        · right
          have hb0 : b = 0 := by simpa using hpb
          subst hb0
          exact hb
    case isFalse hv => cases hs
  · intro e he
    simp only [doomstr] at he
    split at he
    case isTrue hv => cases he
    case isFalse hv =>
      injection he with he2
      exact ⟨he2.symm, by simpa using hv⟩

/-- C8 as stated is false: stripping only trailing NULs from `c8cex` leaves
`[65, 0, 66, 255]`, which contains the byte 255 — never valid in text — so
the claim requires a fatal decode error; but the code truncates at the FIRST
NUL and succeeds, returning just `"A"`. -/
theorem c8_counterexample :
    doomstr c8cex = .ok [65] ∧ (255 : Nat) ∈ c8cex ∧
    validUtf8 [65, 0, 66, 255] = false ∧ ([65] : List Nat) ≠ [65, 0, 66, 255] :=
  ⟨rfl, by decide, by decide, by decide⟩

theorem c8_witness :
    doomstr c8wNb = .ok [72, 73] ∧ validUtf8 [72, 73] = true ∧
    ([72, 73] : List Nat) = c8wNb.take ([72, 73] : List Nat).length :=
  have h := (c8_theorem c8wNb).1 [72, 73] rfl
  ⟨rfl, h.1, h.2.1⟩

theorem readU8_ok (d : List Nat) (p : Nat) (h : p < d.length) :
    readU8 ⟨d, p⟩ = .ok (d[p] % 256, ⟨d, p + 1⟩) := by
  rw [readU8]
  exact dif_pos h

theorem readU32le_shape (d : List Nat) (p : Nat) (h : p + 4 ≤ d.length) :
    ∃ v, readU32le ⟨d, p⟩ = .ok (v, ⟨d, p + 4⟩) := by
  have h1 : p < d.length := by omega
  have h2 : p + 1 < d.length := by omega
  have h3 : p + 1 + 1 < d.length := by omega
  have h4 : p + 1 + 1 + 1 < d.length := by omega
  refine ⟨d[p] % 256 + 256 * (d[p + 1] % 256) + 65536 * (d[p + 1 + 1] % 256)
    + 16777216 * (d[p + 1 + 1 + 1] % 256), ?_⟩
  simp only [readU32le, readU8_ok d p h1, readU8_ok d (p + 1) h2,
    readU8_ok d (p + 1 + 1) h3, readU8_ok d (p + 1 + 1 + 1) h4]

/-- C9 (amended): for every archive whose 4-byte magic decodes as text but is
neither `"IWAD"` nor `"PWAD"`, `go` aborts with the `BadMagic` failure no
matter what the rest of the file contains — the result does not depend on
the lump count, directory offset, or directory bytes, so no directory
parsing is ever attempted; an archive whose magic bytes do not decode as
text aborts, equally before any directory parsing, with the non-text-name
failure (the `Non-ASCII in WAD` panic) instead of `BadMagic`.
(`8 ≤ rest.length` only ensures the fixed 12-byte header itself is
readable.) -/
theorem c9_theorem (up : Bool) (m0 m1 m2 m3 : Nat) (rest : List Nat)
    (hb0 : m0 < 256) (hb1 : m1 < 256) (hb2 : m2 < 256) (hb3 : m3 < 256)
    (hlen : 8 ≤ rest.length) :
    (∀ magic, doomstr [m0, m1, m2, m3] = .ok magic →
      magic ≠ IWAD → magic ≠ PWAD →
      runGo (m0 :: m1 :: m2 :: m3 :: rest) up = .error .badMagic) ∧
    (∀ e, doomstr [m0, m1, m2, m3] = .error e →
      runGo (m0 :: m1 :: m2 :: m3 :: rest) up = .error e) := by
  have hw : (m0 :: m1 :: m2 :: m3 :: rest).length = rest.length + 4 := by
    simp
  have e0 : readU8 ⟨m0 :: m1 :: m2 :: m3 :: rest, 0⟩
      = .ok (m0, ⟨m0 :: m1 :: m2 :: m3 :: rest, 1⟩) := by
    rw [readU8_ok _ 0 (by simp)]
    simp [Nat.mod_eq_of_lt hb0]
  have e1 : readU8 ⟨m0 :: m1 :: m2 :: m3 :: rest, 1⟩
      = .ok (m1, ⟨m0 :: m1 :: m2 :: m3 :: rest, 2⟩) := by
    rw [readU8_ok _ 1 (by simp)]
    simp [Nat.mod_eq_of_lt hb1]
  have e2 : readU8 ⟨m0 :: m1 :: m2 :: m3 :: rest, 2⟩
      = .ok (m2, ⟨m0 :: m1 :: m2 :: m3 :: rest, 3⟩) := by
    rw [readU8_ok _ 2 (by simp)]
    simp [Nat.mod_eq_of_lt hb2]
  have e3 : readU8 ⟨m0 :: m1 :: m2 :: m3 :: rest, 3⟩
      = .ok (m3, ⟨m0 :: m1 :: m2 :: m3 :: rest, 4⟩) := by
    rw [readU8_ok _ 3 (by simp)]
    simp [Nat.mod_eq_of_lt hb3]
  have h0 : readBytes ⟨m0 :: m1 :: m2 :: m3 :: rest, 0⟩ 4
      = .ok ([m0, m1, m2, m3], ⟨m0 :: m1 :: m2 :: m3 :: rest, 4⟩) := by
    simp only [readBytes, e0, e1, e2, e3]
  obtain ⟨v1, h1⟩ := readU32le_shape (m0 :: m1 :: m2 :: m3 :: rest) 4
    (by rw [hw]; omega)
  obtain ⟨v2, h2⟩ := readU32le_shape (m0 :: m1 :: m2 :: m3 :: rest) 8
    (by rw [hw]; omega)
  constructor
  · intro magic hdo hm1 hm2
    simp only [runGo, h0, h1, h2, hdo]
    rw [if_neg (by rintro (h | h); exacts [hm1 h, hm2 h])]
  · intro e hde
    simp only [runGo, h0, h1, h2, hde]

/-- C9 as stated is false: the claim quantifies over every archive whose
magic is neither `"IWAD"` nor `"PWAD"`, but when the magic bytes do not
decode as text (here the invalid UTF-8 byte 0x80 followed by `"AAD"`) the
run aborts through `doomstr`'s `Non-ASCII in WAD` panic — a
NonTextName-class failure, not a BadMagic-class one — because `go` decodes
the magic as text before comparing it. -/
theorem c9_counterexample :
    ([128, 65, 65, 68] : List Nat) ≠ IWAD ∧
    ([128, 65, 65, 68] : List Nat) ≠ PWAD ∧
    runGo (128 :: 65 :: 65 :: 68 :: List.replicate 8 0) false
      = .error .nonText ∧
    Err.nonText ≠ Err.badMagic :=
  ⟨by decide, by decide, rfl, by decide⟩

theorem c9_witness :
    runGo (88 :: 87 :: 65 :: 68 :: List.replicate 8 0) false
      = .error .badMagic ∧
    runGo (129 :: 65 :: 65 :: 68 :: List.replicate 8 0) false
      = .error .nonText :=
  ⟨(c9_theorem false 88 87 65 68 (List.replicate 8 0) (by decide) (by decide)
      (by decide) (by decide) (by decide)).1 [88, 87, 65, 68] rfl
      (by decide) (by decide),
   (c9_theorem false 129 65 65 68 (List.replicate 8 0) (by decide) (by decide)
      (by decide) (by decide) (by decide)).2 .nonText rfl⟩
